import Mathlib

/-!
Verification development for the rs3cache_extractor cluster-graph builder.

The Python sources under `src/scripts/cluster/` (entrance discovery,
inter/intra connectors, neighbor policy, JPS accelerator, db context) and
`src/walk_mask_decode.py` are shallowly embedded below.  SQLite tables are
modelled as lists of rows (scan order = list order) or, for upsert-keyed
output tables, as extensional key-to-value maps.  Python dicts are modelled
as association lists with first-match lookup.
-/

set_option autoImplicit false
set_option maxRecDepth 8192

namespace RS3

/-! ## Generic helpers: Python dict get / assoc lists -/

/-- First-match association lookup (Python `dict` access, list scan). -/
def alookup {α β : Type} [DecidableEq α] : List (α × β) → α → Option β
  | [], _ => none
  | (k, v) :: rest, key => if key = k then some v else alookup rest key

/-- Python `dict.get(key, default)`. -/
def pyGet {α β : Type} [DecidableEq α] (m : List (α × β)) (key : α) (dflt : β) : β :=
  (alookup m key).getD dflt

/-- Dict update `d[key] = v`, modelled by shadowing (extensionally faithful). -/
def aset {α β : Type} (m : List (α × β)) (key : α) (v : β) : List (α × β) :=
  (key, v) :: m

/-! ## src/walk_mask_decode.py -/

/-- `DIRECTION_BITS`: bit index paired with the direction name, in source order. -/
def DIRECTION_BITS : List (Nat × String) :=
  [(0, "left"), (1, "bottom"), (2, "right"), (3, "top"),
   (4, "topleft"), (5, "bottomleft"), (6, "bottomright"), (7, "topright")]

/-- `decode_walk_mask`: dict comprehension `{name: bool(mask & (1 << bit))}`. -/
def decode_walk_mask (walk_mask : Nat) : List (String × Bool) :=
  DIRECTION_BITS.map fun p => (p.2, decide (walk_mask &&& (1 <<< p.1) ≠ 0))

/-- `encode_walk_mask`: fold over `DIRECTION_BITS` setting bits for truthy names. -/
def encode_walk_mask (walkable : List (String × Bool)) : Nat :=
  DIRECTION_BITS.foldl
    (fun mask p => if pyGet walkable p.2 false then mask ||| (1 <<< p.1) else mask) 0

/-! ## Tile store model

`tiles` rows carry nullable `blocked`/`walk_mask` columns and a textual
`walk_data` column.  The `walk_data` text is modelled by its JSON parse
outcome: SQL NULL, text that fails to parse as a JSON object (`corrupt`,
covering both invalid JSON and non-object JSON), or a parsed key/bool map
(Python truthiness of the values already applied, as in
`{k: bool(v) for k, v in data.items()}`). -/

inductive WalkDataCol : Type
  | null
  | corrupt
  | obj (flags : List (String × Bool))
  deriving DecidableEq

structure TileRow where
  x : Int
  y : Int
  plane : Int
  chunk_x : Int
  chunk_z : Int
  blocked : Option Int
  walk_mask : Option Int
  walk_data : WalkDataCol
  deriving DecidableEq

/-- Directions stored in `neighbor_dir` (schema CHECK restricts to N,S,E,W). -/
inductive D4 : Type
  | N | E | S | W
  deriving DecidableEq

/-- An entrance row of `cluster_entrances` as read by the inter-connector. -/
structure EntranceRow where
  entrance_id : Int
  chunk_x : Int
  chunk_z : Int
  plane : Int
  x : Int
  y : Int
  neighbor_dir : D4
  deriving DecidableEq

/-- A `jps_jump` row; `next_x`/`next_y` are nullable. -/
structure JpsJumpRow where
  x : Int
  y : Int
  plane : Int
  next_x : Option Int
  next_y : Option Int
  deriving DecidableEq

/-- The SQLite database as read by the cluster scripts.  Lists model tables
in scan (rowid) order; `jps_present` models the `sqlite_master` probe of
`_tables_present` (the cached global). -/
structure Db where
  tiles : List TileRow
  chunks : List (Int × Int × Int)
  entrances : List EntranceRow
  jps_present : Bool
  jps_jump : List JpsJumpRow

/-- `SELECT ... FROM tiles WHERE x=? AND y=? AND plane=?` + `fetchone`. -/
def tileAt (db : Db) (x y plane : Int) : Option TileRow :=
  db.tiles.find? fun t => t.x = x ∧ t.y = y ∧ t.plane = plane

/-! ## The four `_is_walkable` checks (C9)

`entrance_discovery._is_walkable`, `inter_connector._is_walkable` and
`intra_connector._is_walkable` are textually identical in the source;
`NeighborPolicy._is_walkable` (database fallback) is structured differently. -/

/-- `entrance_discovery._is_walkable`. -/
def ED_is_walkable (db : Db) (x y plane : Int) : Bool :=
  match tileAt db x y plane with
  | none => false
  | some row =>
      let blocked := row.blocked.getD 1
      let walk_mask := row.walk_mask.getD 0
      decide (blocked = 0) && decide (walk_mask ≠ 0)

/-- `inter_connector._is_walkable`. -/
def INTER_is_walkable (db : Db) (x y plane : Int) : Bool :=
  match tileAt db x y plane with
  | none => false
  | some row =>
      let blocked := row.blocked.getD 1
      let walk_mask := row.walk_mask.getD 0
      decide (blocked = 0) && decide (walk_mask ≠ 0)

/-- `intra_connector._is_walkable`. -/
def INTRA_is_walkable (db : Db) (x y plane : Int) : Bool :=
  match tileAt db x y plane with
  | none => false
  | some row =>
      let blocked := row.blocked.getD 1
      let walk_mask := row.walk_mask.getD 0
      decide (blocked = 0) && decide (walk_mask ≠ 0)

/-- `NeighborPolicy._is_walkable`, database branch (`_walkable_cb is None`):
`if row is None: False`, `if blocked: False`, `return walk_mask != 0`. -/
def NP_is_walkable_db (db : Db) (x y plane : Int) : Bool :=
  match tileAt db x y plane with
  | none => false
  | some row =>
      let blocked := row.blocked.getD 1
      let walk_mask := row.walk_mask.getD 0
      if blocked ≠ 0 then false else decide (walk_mask ≠ 0)

/-- The common walkability predicate all four checks are claimed to compute:
a tiles row exists with `blocked = 0` and `walk_mask ≠ 0`, NULL `blocked`
counting as 1 and NULL `walk_mask` as 0. -/
def walkableSpec (db : Db) (x y plane : Int) : Prop :=
  ∃ row, tileAt db x y plane = some row ∧
    row.blocked.getD 1 = 0 ∧ row.walk_mask.getD 0 ≠ 0

/-! ## Entrance discovery: walk flags and the crossing test -/

/-- `entrance_discovery.DIRECTIONS` (Convention B: N is y+1, S is y-1). -/
def DIRECTIONS : List (D4 × (Int × Int)) :=
  [(D4.N, (0, 1)), (D4.E, (1, 0)), (D4.S, (0, -1)), (D4.W, (-1, 0))]

/-- `entrance_discovery._get_walk_flags`: NULL column or a failed JSON parse
yields `None`; otherwise the parsed key/bool map. -/
def ED_get_walk_flags (db : Db) (x y plane : Int) : Option (List (String × Bool)) :=
  match tileAt db x y plane with
  | none => none
  | some row =>
      match row.walk_data with
      | WalkDataCol.null => none
      | WalkDataCol.corrupt => none
      | WalkDataCol.obj flags => some flags

/-- `entrance_discovery._can_cross`.  Note the deltas here: the source
computes `dy = -1` for N and `dy = +1` for S, unlike `DIRECTIONS`. -/
def ED_can_cross (db : Db) (x y plane : Int) (d : D4) : Bool :=
  let dxy : Int × Int :=
    match d with
    | D4.N => (0, -1)
    | D4.S => (0, 1)
    | D4.E => (1, 0)
    | D4.W => (-1, 0)
  let nx := x + dxy.1
  let ny := y + dxy.2
  let a := (ED_get_walk_flags db x y plane).getD []
  let b := (ED_get_walk_flags db nx ny plane).getD []
  match d with
  | D4.N => pyGet a "bottom" true && pyGet b "top" true
  | D4.S => pyGet a "top" true && pyGet b "bottom" true
  | D4.E => pyGet a "right" true && pyGet b "left" true
  | D4.W => pyGet a "left" true && pyGet b "right" true

/-- `inter_connector.DIR_DELTA` (Convention B: N is y+1, S is y-1). -/
def DIR_DELTA (d : D4) : Int × Int :=
  match d with
  | D4.N => (0, 1)
  | D4.E => (1, 0)
  | D4.S => (0, -1)
  | D4.W => (-1, 0)

/-- `inter_connector._get_walk_flags` (textually identical to the
entrance-discovery version). -/
def INTER_get_walk_flags (db : Db) (x y plane : Int) : Option (List (String × Bool)) :=
  match tileAt db x y plane with
  | none => none
  | some row =>
      match row.walk_data with
      | WalkDataCol.null => none
      | WalkDataCol.corrupt => none
      | WalkDataCol.obj flags => some flags

/-- `inter_connector._can_cross`: the external tile comes from `DIR_DELTA`. -/
def INTER_can_cross (db : Db) (x y plane : Int) (d : D4) : Bool :=
  let dxy := DIR_DELTA d
  let nx := x + dxy.1
  let ny := y + dxy.2
  let a := (INTER_get_walk_flags db x y plane).getD []
  let b := (INTER_get_walk_flags db nx ny plane).getD []
  match d with
  | D4.N => pyGet a "bottom" true && pyGet b "top" true
  | D4.S => pyGet a "top" true && pyGet b "bottom" true
  | D4.E => pyGet a "right" true && pyGet b "left" true
  | D4.W => pyGet a "left" true && pyGet b "right" true

/-- Rewrite the `walk_data` column of every tiles row at `(x, y, plane)`. -/
def setWalkData (db : Db) (x y plane : Int) (w : WalkDataCol) : Db :=
  { db with
    tiles := db.tiles.map fun t =>
      if t.x = x ∧ t.y = y ∧ t.plane = plane then { t with walk_data := w } else t }

/-! ## Entrance discovery: the run loop

`cluster_entrances` is keyed on (chunk_x, chunk_z, plane, x, y); the upsert
overwrites `neighbor_dir` on conflict, so the table is modelled as an
extensional map from that key to the stored direction.  The run never reads
`cluster_entrances`, so its write effect is exactly the sequence of deletes
and upserts it issues, applied in order. -/

abbrev EntKey : Type := Int × Int × Int × Int × Int

abbrev EntTable : Type := EntKey → Option D4

/-- A write issued by `entrance_discovery.run`: the recompute `DELETE` for a
(chunk, plane) scope, or the keyed upsert. -/
inductive EdOp : Type
  | del (chunk_x chunk_z plane : Int)
  | put (key : EntKey) (d : D4)

def applyEdOp (s : EntTable) (op : EdOp) : EntTable :=
  match op with
  | EdOp.del cx cz p =>
      fun k => if k.1 = cx ∧ k.2.1 = cz ∧ k.2.2.1 = p then none else s k
  | EdOp.put key d =>
      fun k => if k = key then some d else s k

def applyEdOps (s : EntTable) (ops : List EdOp) : EntTable :=
  ops.foldl applyEdOp s

/-- `SELECT DISTINCT` in first-occurrence scan order. -/
def dedupFirst {α : Type} [DecidableEq α] (l : List α) : List α :=
  l.foldl (fun acc a => if a ∈ acc then acc else acc ++ [a]) []

/-- `entrance_discovery._planes_for_chunk`. -/
def planesForChunk (db : Db) (chunk_x chunk_z : Int)
    (planes : Option (List Int)) : List Int :=
  match planes with
  | some ps => ps
  | none =>
      dedupFirst
        ((db.tiles.filter fun t => t.chunk_x = chunk_x ∧ t.chunk_z = chunk_z).map
          (·.plane))

/-- `entrance_discovery._border_tiles`: walkable tiles on a chunk edge, in
scan order (`blocked=0` and `walk_mask != 0` are SQL comparisons, so NULL
columns never match). -/
def borderTiles (db : Db) (chunk_x chunk_z plane x0 y0 x1 y1 : Int) :
    List (Int × Int) :=
  (db.tiles.filter fun t =>
    decide (t.chunk_x = chunk_x) && decide (t.chunk_z = chunk_z) &&
    decide (t.plane = plane) &&
    (decide (t.x = x0) || decide (t.x = x1) || decide (t.y = y0) || decide (t.y = y1)) &&
    decide (t.blocked = some 0) &&
    (match t.walk_mask with | some m => decide (m ≠ 0) | none => false)).map
    fun t => (t.x, t.y)

/-- The borders a tile lies on, in the source order S, E, N, W. -/
def edBordersOf (x0 y0 x1 y1 x y : Int) : List D4 :=
  (if y = y0 then [D4.S] else []) ++
  (if x = x1 then [D4.E] else []) ++
  (if y = y1 then [D4.N] else []) ++
  (if x = x0 then [D4.W] else [])

/-- The direction chosen for a border tile: the first entry of `DIRECTIONS`
that applies to the tile's borders and whose external tile (per
`DIRECTIONS`) is walkable with `_can_cross` succeeding. -/
def edChosenDir (db : Db) (x0 y0 x1 y1 plane : Int) (xy : Int × Int) :
    Option D4 :=
  let x := xy.1
  let y := xy.2
  let dirs := edBordersOf x0 y0 x1 y1 x y
  (DIRECTIONS.find? fun dd =>
    decide (dd.1 ∈ dirs) &&
    ED_is_walkable db (x + dd.2.1) (y + dd.2.2) plane &&
    ED_can_cross db x y plane dd.1).map (·.1)

/-- The writes `run` issues for one (chunk, plane). -/
def edPlaneOps (db : Db) (recompute dry_run : Bool)
    (chunk_x chunk_z size plane : Int) : List EdOp :=
  let x0 := chunk_x * size
  let y0 := chunk_z * size
  let x1 := x0 + size - 1
  let y1 := y0 + size - 1
  (if recompute && !dry_run then [EdOp.del chunk_x chunk_z plane] else []) ++
  ((borderTiles db chunk_x chunk_z plane x0 y0 x1 y1).bind fun xy =>
    match edChosenDir db x0 y0 x1 y1 plane xy with
    | none => []
    | some d =>
        if dry_run then []
        else [EdOp.put (chunk_x, chunk_z, plane, xy.1, xy.2) d])

/-- The chunk rows matching the (open-ended) chunk range filter. -/
def chunksInRange (db : Db)
    (chunk_range : Option Int × Option Int × Option Int × Option Int) :
    List (Int × Int × Int) :=
  db.chunks.filter fun c =>
    (match chunk_range.1 with | some v => decide (c.1 ≥ v) | none => true) &&
    (match chunk_range.2.1 with | some v => decide (c.1 ≤ v) | none => true) &&
    (match chunk_range.2.2.1 with | some v => decide (c.2.1 ≥ v) | none => true) &&
    (match chunk_range.2.2.2 with | some v => decide (c.2.1 ≤ v) | none => true)

/-- All writes issued by `entrance_discovery.run` over the scope, in order. -/
def edOps (db : Db) (planes : Option (List Int))
    (chunk_range : Option Int × Option Int × Option Int × Option Int)
    (recompute dry_run : Bool) : List EdOp :=
  (chunksInRange db chunk_range).bind fun c =>
    (planesForChunk db c.1 c.2.1 planes).bind fun plane =>
      edPlaneOps db recompute dry_run c.1 c.2.1 c.2.2 plane

/-- The effect of `entrance_discovery.run` on `cluster_entrances`. -/
def edRun (db : Db) (planes : Option (List Int))
    (chunk_range : Option Int × Option Int × Option Int × Option Int)
    (recompute dry_run : Bool) (s : EntTable) : EntTable :=
  applyEdOps s (edOps db planes chunk_range recompute dry_run)

/-- What an operation does to a single key, if anything. -/
def edTouch (op : EdOp) (k : EntKey) : Option (Option D4) :=
  match op with
  | EdOp.del cx cz p =>
      if k.1 = cx ∧ k.2.1 = cz ∧ k.2.2.1 = p then some none else none
  | EdOp.put key d => if k = key then some (some d) else none

/-- The last operation of a sequence touching a given key, if any. -/
def lastTouch (ops : List EdOp) (k : EntKey) : Option (Option D4) :=
  match ops with
  | [] => none
  | op :: rest =>
      match lastTouch rest k with
      | some r => some r
      | none => edTouch op k

/-! ## src/scripts/cluster/inter_connector.py: the run loop

`cluster_interconnections` has primary key (entrance_from, entrance_to), so
the table is modelled as an extensional map from that key to the stored
cost. -/

abbrev Inter : Type := Int × Int → Option Int

/-- `OPPOSITE` (total on the four directions the schema admits). -/
def OPPOSITE (d : D4) : D4 :=
  match d with
  | D4.N => D4.S
  | D4.S => D4.N
  | D4.E => D4.W
  | D4.W => D4.E

/-- `inter_connector._neighbor_chunk`. -/
def neighborChunk (chunk_x chunk_z : Int) (d : D4) : Int × Int :=
  match d with
  | D4.N => (chunk_x, chunk_z + 1)
  | D4.S => (chunk_x, chunk_z - 1)
  | D4.E => (chunk_x + 1, chunk_z)
  | D4.W => (chunk_x - 1, chunk_z)

/-- `inter_connector._find_opposing_entrance`. -/
def findOpposingEntrance (db : Db) (x y plane opp_cx opp_cz : Int)
    (opp_dir : D4) (dx dy : Int) : Option Int :=
  (db.entrances.find? fun e =>
    decide (e.chunk_x = opp_cx) && decide (e.chunk_z = opp_cz) &&
    decide (e.plane = plane) && decide (e.x = x + dx) &&
    decide (e.y = y + dy) && decide (e.neighbor_dir = opp_dir)).map
    (·.entrance_id)

/-- The WHERE clause shared by `_select_chunk_pairs` and
`_delete_existing_for_scope` (note: an empty plane list disables the plane
filter, as in the source's `len(planes) > 0` check). -/
def interScopeFilter (planes : Option (List Int))
    (chunk_range : Option Int × Option Int × Option Int × Option Int)
    (e : EntranceRow) : Bool :=
  (match chunk_range.1 with | some v => decide (e.chunk_x ≥ v) | none => true) &&
  (match chunk_range.2.1 with | some v => decide (e.chunk_x ≤ v) | none => true) &&
  (match chunk_range.2.2.1 with | some v => decide (e.chunk_z ≥ v) | none => true) &&
  (match chunk_range.2.2.2 with | some v => decide (e.chunk_z ≤ v) | none => true) &&
  (match planes with
   | some ps => if ps.length > 0 then decide (e.plane ∈ ps) else true
   | none => true)

/-- The ORDER BY (chunk_x, chunk_z, plane, entrance_id) comparison. -/
def entSortKeyLe (a b : EntranceRow) : Bool :=
  decide (a.chunk_x < b.chunk_x) ||
  (decide (a.chunk_x = b.chunk_x) && (decide (a.chunk_z < b.chunk_z) ||
    (decide (a.chunk_z = b.chunk_z) && (decide (a.plane < b.plane) ||
      (decide (a.plane = b.plane) && decide (a.entrance_id ≤ b.entrance_id))))))

def insertSorted (le : EntranceRow → EntranceRow → Bool) (a : EntranceRow) :
    List EntranceRow → List EntranceRow
  | [] => [a]
  | b :: rest => if le a b then a :: b :: rest else b :: insertSorted le a rest

def sortRows (le : EntranceRow → EntranceRow → Bool)
    (l : List EntranceRow) : List EntranceRow :=
  l.foldr (insertSorted le) []

/-- `inter_connector._select_chunk_pairs`. -/
def interSelect (db : Db) (planes : Option (List Int))
    (chunk_range : Option Int × Option Int × Option Int × Option Int) :
    List EntranceRow :=
  sortRows entSortKeyLe (db.entrances.filter (interScopeFilter planes chunk_range))

/-- `_delete_existing_for_scope`: drop rows whose `entrance_from` is a scope
entrance. -/
def interDeleteScope (t : Inter) (ids : List Int) : Inter :=
  fun k => if k.1 ∈ ids then none else t k

/-- The `ON CONFLICT ... DO UPDATE SET cost = MIN(existing, excluded)` upsert. -/
def upsertMinCost (t : Inter) (key : Int × Int) (c : Int) : Inter :=
  fun k =>
    if k = key then
      match t key with
      | none => some c
      | some c0 => some (min c0 c)
    else t k

/-- One iteration of the entrance loop in `inter_connector.run`. -/
def interStep (db : Db) (dry_run : Bool) (t : Inter) (e : EntranceRow) : Inter :=
  let opp_dir := OPPOSITE e.neighbor_dir
  let ncx_ncz := neighborChunk e.chunk_x e.chunk_z e.neighbor_dir
  if !(INTER_is_walkable db e.x e.y e.plane) then t
  else
    let dxy := DIR_DELTA e.neighbor_dir
    if !(INTER_is_walkable db (e.x + dxy.1) (e.y + dxy.2) e.plane) then t
    else if !(INTER_can_cross db e.x e.y e.plane e.neighbor_dir) then t
    else
      match findOpposingEntrance db e.x e.y e.plane ncx_ncz.1 ncx_ncz.2
          opp_dir dxy.1 dxy.2 with
      | none => t
      | some opp_id =>
          if dry_run then t
          else
            upsertMinCost (upsertMinCost t (e.entrance_id, opp_id) 1)
              (opp_id, e.entrance_id) 1

/-- The effect of `inter_connector.run` on `cluster_interconnections`. -/
def interRun (db : Db) (planes : Option (List Int))
    (chunk_range : Option Int × Option Int × Option Int × Option Int)
    (recompute dry_run : Bool) (t : Inter) : Inter :=
  let t0 :=
    if recompute && !dry_run then
      interDeleteScope t
        ((db.entrances.filter (interScopeFilter planes chunk_range)).map
          (·.entrance_id))
    else t
  (interSelect db planes chunk_range).foldl (interStep db dry_run) t0

/-- Symmetry of the interconnection table: cost of (a,b) equals cost of (b,a). -/
def InterSymm (t : Inter) : Prop :=
  ∀ a b : Int, t (a, b) = t (b, a)

/-- The conflict action of the upsert, as a value transformer. -/
def mergeCost (c : Int) (v : Option Int) : Option Int :=
  match v with
  | none => some c
  | some c0 => some (min c0 c)

/-- Every key either kept its pre-run value or underwent the unit-cost
min-merge upsert at least once. -/
def InterEvolved (t t' : Inter) : Prop :=
  ∀ k, t' k = t k ∨ t' k = mergeCost 1 (t k)

/-! ## src/scripts/cluster/neighbor_policy.py -/

/-- Python `range(a, b)` over integers. -/
def rangeInts (a b : Int) : List Int :=
  (List.range (b - a).toNat).map fun i => a + (i : Int)

/-- The frozen `NeighborPolicy` dataclass: the movement-policy integers, the
connection, and the optional walkability callback. -/
structure NeighborPolicy where
  allow_diagonals : Int
  allow_corner_cut : Int
  unit_radius_tiles : Int
  conn : Db
  walkable_cb : Option (Int → Int → Int → Bool)

/-- `NeighborPolicy.with_walkable`. -/
def NeighborPolicy.with_walkable (p : NeighborPolicy)
    (cb : Option (Int → Int → Int → Bool)) : NeighborPolicy :=
  { p with walkable_cb := cb }

/-- `NeighborPolicy._is_walkable`: the callback when set, else the database. -/
def NeighborPolicy.isWalkable (p : NeighborPolicy) (x y plane : Int) : Bool :=
  match p.walkable_cb with
  | some cb => cb x y plane
  | none => NP_is_walkable_db p.conn x y plane

/-- `NeighborPolicy._can_step`: target walkable, then the unit-radius
Chebyshev square scan (`for ox in range(-r, r+1): for oy in ...`). -/
def NeighborPolicy.canStep (p : NeighborPolicy) (x y nx ny plane : Int)
    (corner : Bool) : Bool :=
  if !(p.isWalkable nx ny plane) then false
  else
    let r := p.unit_radius_tiles
    if r ≤ 0 then true
    else
      (rangeInts (-r) (r + 1)).all fun ox =>
        (rangeInts (-r) (r + 1)).all fun oy =>
          p.isWalkable (nx + ox) (ny + oy) plane

/-- `NeighborPolicy.neighbors`: the cardinal offsets `(0,-1), (1,0), (0,1),
(-1,0)` then, when diagonals are enabled, `(1,-1), (1,1), (-1,1), (-1,-1)`,
with the corner-cut guard before `_can_step` exactly as in the source. -/
def NeighborPolicy.neighbors (p : NeighborPolicy) (x y plane : Int) :
    List (Int × Int × Int) :=
  let cardinals : List (Int × Int) := [(0, -1), (1, 0), (0, 1), (-1, 0)]
  let diagonals : List (Int × Int) := [(1, -1), (1, 1), (-1, 1), (-1, -1)]
  let res := cardinals.foldl (fun res d =>
    if p.canStep x y (x + d.1) (y + d.2) plane false then
      res ++ [(x + d.1, y + d.2, plane)]
    else res) []
  if p.allow_diagonals ≠ 0 then
    diagonals.foldl (fun res d =>
      if p.allow_corner_cut = 0 &&
          !(p.isWalkable (x + d.1) y plane && p.isWalkable x (y + d.2) plane) then res
      else if p.canStep x y (x + d.1) (y + d.2) plane true then
        res ++ [(x + d.1, y + d.2, plane)]
      else res) res
  else res

/-- The spec's unit-radius rule: the full Chebyshev square of radius r
centered at the destination is walkable (r = 0 disables the check). -/
def radiusOkSpec (p : NeighborPolicy) (nx ny plane : Int) : Bool :=
  if p.unit_radius_tiles ≤ 0 then true
  else
    (rangeInts (-p.unit_radius_tiles) (p.unit_radius_tiles + 1)).all fun ox =>
      (rangeInts (-p.unit_radius_tiles) (p.unit_radius_tiles + 1)).all fun oy =>
        p.isWalkable (nx + ox) (ny + oy) plane

/-- Modelled from the spec's §4.B admissibility rules (walkable target,
corner-cut rule, unit-radius rule) with the candidate order the code
produces: cardinals `(0,-1), (1,0), (0,1), (-1,0)` — S, E, N, W under
Convention B — then diagonals `(1,-1), (1,1), (-1,1), (-1,-1)` — SE, NE,
NW, SW under Convention B — when diagonals are enabled. -/
def neighborsAmended (p : NeighborPolicy) (x y plane : Int) :
    List (Int × Int × Int) :=
  let cards : List (Int × Int) := [(0, -1), (1, 0), (0, 1), (-1, 0)]
  let diags : List (Int × Int) := [(1, -1), (1, 1), (-1, 1), (-1, -1)]
  (cards.filterMap fun d =>
    if p.isWalkable (x + d.1) (y + d.2) plane &&
        radiusOkSpec p (x + d.1) (y + d.2) plane then
      some (x + d.1, y + d.2, plane)
    else none) ++
  (if p.allow_diagonals ≠ 0 then
    diags.filterMap fun d =>
      if (!(p.allow_corner_cut = 0 &&
              !(p.isWalkable (x + d.1) y plane && p.isWalkable x (y + d.2) plane))) &&
          (p.isWalkable (x + d.1) (y + d.2) plane &&
            radiusOkSpec p (x + d.1) (y + d.2) plane) then
        some (x + d.1, y + d.2, plane)
      else none
  else [])

/-- Modelled from the claim's words for C3: candidate neighbors in the order
N, E, S, W under Convention B (N is (x, y+1)), then diagonals NE, SE, SW,
NW, with the same admissibility rules. -/
def neighborsClaimC3 (p : NeighborPolicy) (x y plane : Int) :
    List (Int × Int × Int) :=
  let cards : List (Int × Int) := [(0, 1), (1, 0), (0, -1), (-1, 0)]
  let diags : List (Int × Int) := [(1, 1), (1, -1), (-1, -1), (-1, 1)]
  (cards.filterMap fun d =>
    if p.isWalkable (x + d.1) (y + d.2) plane &&
        radiusOkSpec p (x + d.1) (y + d.2) plane then
      some (x + d.1, y + d.2, plane)
    else none) ++
  (if p.allow_diagonals ≠ 0 then
    diags.filterMap fun d =>
      if (!(p.allow_corner_cut = 0 &&
              !(p.isWalkable (x + d.1) y plane && p.isWalkable x (y + d.2) plane))) &&
          (p.isWalkable (x + d.1) (y + d.2) plane &&
            radiusOkSpec p (x + d.1) (y + d.2) plane) then
        some (x + d.1, y + d.2, plane)
      else none
  else [])

/-! ## src/scripts/cluster/jps_accelerator.py -/

/-- `jps_accelerator._is_walkable` (textually identical to the others). -/
def JPS_is_walkable (db : Db) (x y plane : Int) : Bool :=
  match tileAt db x y plane with
  | none => false
  | some row =>
      let blocked := row.blocked.getD 1
      let walk_mask := row.walk_mask.getD 0
      decide (blocked = 0) && decide (walk_mask ≠ 0)

/-- `expand_with_jps`: when the JPS tables are present, the non-null jump
successors of the tile in scan order, deduplicated and filtered by the
walkability callback (or the database); when that list is empty, fall back
to `policy.neighbors`. -/
def expand_with_jps (conn : Db) (policy : NeighborPolicy) (x y plane : Int)
    (is_walkable : Option (Int → Int → Int → Bool)) : List (Int × Int × Int) :=
  let results : List (Int × Int) :=
    if conn.jps_present then
      ((conn.jps_jump.filter fun r =>
          decide (r.x = x) && decide (r.y = y) && decide (r.plane = plane) &&
          r.next_x.isSome && r.next_y.isSome).map
        fun r => (r.next_x.getD 0, r.next_y.getD 0)).foldl
        (fun seen nxy =>
          if nxy ∈ seen then seen
          else
            let ok := match is_walkable with
              | some f => f nxy.1 nxy.2 plane
              | none => JPS_is_walkable conn nxy.1 nxy.2 plane
            if !ok then seen else seen ++ [nxy]) []
    else []
  if results ≠ [] then results.map fun p => (p.1, p.2, plane)
  else policy.neighbors x y plane

/-! ## src/scripts/cluster/intra_connector.py: A*

Nodes are (x, y, plane) triples; heap entries are (f, node) pairs ordered
by Python tuple comparison.  The open heap is a list in insertion order
with `popMin` extracting a least entry, matching `heapq` on the entry
multiset.  `g_score`/`f_score`/`came` dicts are association lists with
shadowing updates.  The `while open_heap` loop runs on fuel; exhausted fuel
returns None, which only widens the None cases of the embedding. -/

abbrev Node : Type := Int × Int × Int

/-- `_chunk_bounds`. -/
def chunkBounds (chunk_x chunk_z size : Int) : Int × Int × Int × Int :=
  (chunk_x * size, chunk_z * size,
    chunk_x * size + size - 1, chunk_z * size + size - 1)

/-- `_in_bounds` for bounds (x0, y0, x1, y1). -/
def inBounds (x y : Int) (bounds : Int × Int × Int × Int) : Bool :=
  decide (bounds.1 ≤ x) && decide (x ≤ bounds.2.2.1) &&
  decide (bounds.2.1 ≤ y) && decide (y ≤ bounds.2.2.2)

/-- `_chebyshev_cost`. -/
def chebyshevCost (ax ay bx b_y : Int) : Int :=
  ((max (bx - ax).natAbs (b_y - ay).natAbs : Nat) : Int)

def cheb (a b : Node) : Int := chebyshevCost a.1 a.2.1 b.1 b.2.1

/-- Python tuple comparison on (x, y, plane). -/
def nodeLe (a b : Node) : Prop :=
  a.1 < b.1 ∨ (a.1 = b.1 ∧
    (a.2.1 < b.2.1 ∨ (a.2.1 = b.2.1 ∧ a.2.2 ≤ b.2.2)))

instance (a b : Node) : Decidable (nodeLe a b) := by
  unfold nodeLe
  infer_instance

abbrev HeapEntry : Type := Int × Node

/-- Python tuple comparison on (f, node). -/
def entryLe (a b : HeapEntry) : Prop :=
  a.1 < b.1 ∨ (a.1 = b.1 ∧ nodeLe a.2 b.2)

instance (a b : HeapEntry) : Decidable (entryLe a b) := by
  unfold entryLe
  infer_instance

/-- `heapq.heappop` on the entry multiset: extract a least entry under the
tuple order (entries that compare fully equal are identical values, so
taking the first occurrence is faithful). -/
def popMin (heap : List HeapEntry) : Option (HeapEntry × List HeapEntry) :=
  match heap with
  | [] => none
  | e :: es =>
      let m := es.foldl (fun m x => if entryLe m x then m else x) e
      some (m, heap.erase m)

/-- `g_score.get(key, 1 << 60)`. -/
def BIG : Int := 2 ^ 60

structure AState where
  open_heap : List HeapEntry
  g_score : List (Node × Int)
  f_score : List (Node × Int)
  came : List (Node × Node)
  closed : List Node

/-- The neighbor-processing body of the `_a_star` main loop. -/
def relaxNeighbor (goal : Node) (bounds : Int × Int × Int × Int)
    (cur : Node) (st : AState) (nb : Node) : AState :=
  if nb.2.2 ≠ cur.2.2 then st
  else if !(inBounds nb.1 nb.2.1 bounds) then st
  else if nb ∈ st.closed then st
  else
    let step := cheb cur nb
    if step ≤ 0 then st
    else
      let tentative := (alookup st.g_score cur).getD 0 + step
      if tentative < (alookup st.g_score nb).getD BIG then
        let f := tentative + cheb nb goal
        { open_heap := st.open_heap ++ [(f, nb)],
          g_score := aset st.g_score nb tentative,
          f_score := aset st.f_score nb f,
          came := aset st.came nb cur,
          closed := st.closed }
      else st

/-- Path reconstruction (`while current in came`). -/
def reconstructPath (came : List (Node × Node)) (cur : Node) :
    Nat → List Node
  | 0 => [cur]
  | fuel + 1 =>
      match alookup came cur with
      | none => [cur]
      | some prev => reconstructPath came prev fuel ++ [cur]

/-- The resolution of `pol = policy if is_walkable_cb is None else
policy.with_walkable(is_walkable_cb)`. -/
def resolvePolicy (policy : NeighborPolicy)
    (cb : Option (Int → Int → Int → Bool)) : NeighborPolicy :=
  match cb with
  | none => policy
  | some f => policy.with_walkable (some f)

/-- The `while open_heap` loop of `_a_star`. -/
def aStarLoop (conn : Db) (pol : NeighborPolicy) (goal : Node)
    (bounds : Int × Int × Int × Int) (use_jps : Bool)
    (cb : Option (Int → Int → Int → Bool)) :
    Nat → AState → Option (Int × List Node)
  | 0, _ => none
  | fuel + 1, st =>
      match popMin st.open_heap with
      | none => none
      | some (entry, rest) =>
          let cur := entry.2
          if cur ∈ st.closed then
            aStarLoop conn pol goal bounds use_jps cb fuel
              { st with open_heap := rest }
          else
            let st1 := { st with open_heap := rest, closed := cur :: st.closed }
            if cur = goal then
              some ((alookup st1.g_score goal).getD 0,
                reconstructPath st1.came cur (st1.came.length + 1))
            else
              let nbrs :=
                if use_jps then expand_with_jps conn pol cur.1 cur.2.1 cur.2.2 cb
                else pol.neighbors cur.1 cur.2.1 cur.2.2
              aStarLoop conn pol goal bounds use_jps cb fuel
                (nbrs.foldl (relaxNeighbor goal bounds cur) st1)

/-- `intra_connector._a_star`. -/
def aStar (conn : Db) (policy : NeighborPolicy) (start goal : Node)
    (bounds : Int × Int × Int × Int) (use_jps : Bool)
    (is_walkable_cb : Option (Int → Int → Int → Bool)) (fuel : Nat) :
    Option (Int × List Node) :=
  if start.2.2 ≠ goal.2.2 then none
  else if !(inBounds start.1 start.2.1 bounds &&
      inBounds goal.1 goal.2.1 bounds) then none
  else
    let chk := fun x y p =>
      match is_walkable_cb with
      | some f => f x y p
      | none => INTRA_is_walkable conn x y p
    if !(chk start.1 start.2.1 start.2.2 && chk goal.1 goal.2.1 goal.2.2) then
      none
    else
      aStarLoop conn (resolvePolicy policy is_walkable_cb) goal bounds
        use_jps is_walkable_cb fuel
        { open_heap := [(0, start)],
          g_score := [(start, 0)],
          f_score := [(start, cheb start goal)],
          came := [],
          closed := [] }

/-- `intra_connector._build_local_walkable`. -/
def buildLocalWalkable (conn : Db) (chunk_x chunk_z plane : Int) :
    List (Int × Int) :=
  (conn.tiles.filter fun t =>
    decide (t.chunk_x = chunk_x) && decide (t.chunk_z = chunk_z) &&
    decide (t.plane = plane)).foldl
    (fun acc t =>
      if t.blocked.getD 1 = 0 ∧ t.walk_mask.getD 0 ≠ 0 then
        acc ++ [(t.x, t.y)]
      else acc) []

/-- `intra_connector._make_walkable_cb`. -/
def makeWalkableCb (conn : Db) (bounds : Int × Int × Int × Int)
    (plane : Int) (local_walkable : List (Int × Int)) :
    Int → Int → Int → Bool :=
  fun x y p =>
    if p ≠ plane then INTRA_is_walkable conn x y p
    else if inBounds x y bounds then decide ((x, y) ∈ local_walkable)
    else INTRA_is_walkable conn x y p

/-! ## Path predicates for the A* lower-bound claim -/

/-- The sum of Chebyshev step costs along a node path. -/
def pathCost : List Node → Int
  | [] => 0
  | [_] => 0
  | a :: b :: rest => cheb a b + pathCost (b :: rest)

/-- Every node in bounds and every consecutive step admitted by the policy. -/
def stepsOk (pol : NeighborPolicy) (bounds : Int × Int × Int × Int) :
    List Node → Bool
  | [] => true
  | [v] => inBounds v.1 v.2.1 bounds
  | a :: b :: rest =>
      inBounds a.1 a.2.1 bounds &&
      decide (b ∈ pol.neighbors a.1 a.2.1 a.2.2) &&
      stepsOk pol bounds (b :: rest)

/-- An admitted path from s to g: nonempty, endpoints s and g, all nodes in
bounds, each step in the policy's neighbor list. -/
def admittedPath (pol : NeighborPolicy) (bounds : Int × Int × Int × Int)
    (s g : Node) (path : List Node) : Bool :=
  decide (path.head? = some s) && decide (path.getLast? = some g) &&
  stepsOk pol bounds path

/-- The propositional form of `stepsOk`: every node in bounds, consecutive
nodes linked by the policy's neighbor relation. -/
def StepsOkP (pol : NeighborPolicy) (bounds : Int × Int × Int × Int)
    (l : List Node) : Prop :=
  (∀ v ∈ l, inBounds v.1 v.2.1 bounds = true) ∧
  List.Chain' (fun a b => b ∈ pol.neighbors a.1 a.2.1 a.2.2) l

/-! Invariants of the `_a_star` loop state used for the cost lower bound. -/

/-- The start node keeps a non-positive g. -/
def GStartInv (start : Node) (st : AState) : Prop :=
  ∃ g0, alookup st.g_score start = some g0 ∧ g0 ≤ 0

/-- Every closed node's g is at most the cost of any admitted path to it
(below the `1 << 60` sentinel the source uses as infinity). -/
def ClosedBoundInv (pol : NeighborPolicy) (bounds : Int × Int × Int × Int)
    (start : Node) (st : AState) : Prop :=
  ∀ v ∈ st.closed, ∀ path,
    admittedPath pol bounds start v path = true → pathCost path ≤ BIG - 2 →
    ∃ gv, alookup st.g_score v = some gv ∧ gv ≤ pathCost path

/-- Every open node with a g has a heap entry at most g plus the heuristic. -/
def OpenEntryInv (goal : Node) (st : AState) : Prop :=
  ∀ v, v ∉ st.closed → ∀ gv, alookup st.g_score v = some gv →
    ∃ fe, (fe, v) ∈ st.open_heap ∧ fe ≤ gv + cheb v goal

/-- Every heap entry of a non-start node dominates g plus the heuristic. -/
def EntryGInv (start goal : Node) (st : AState) : Prop :=
  ∀ fe v, (fe, v) ∈ st.open_heap → v ≠ start →
    ∃ gv, alookup st.g_score v = some gv ∧ gv + cheb v goal ≤ fe

/-- Node v has relaxed all of its open in-bounds neighbors whose tentative
cost stays below the `1 << 60` sentinel (`g_score.get(key, 1 << 60)` skips
the update otherwise). -/
def RelaxedFor (pol : NeighborPolicy) (bounds : Int × Int × Int × Int)
    (st : AState) (v : Node) : Prop :=
  ∀ w ∈ pol.neighbors v.1 v.2.1 v.2.2,
    inBounds w.1 w.2.1 bounds = true → w ∉ st.closed →
    ∃ gv, alookup st.g_score v = some gv ∧
      (gv + cheb v w < BIG →
        ∃ gw, alookup st.g_score w = some gw ∧ gw ≤ gv + cheb v w)

/-- Every g value is below the `1 << 60` sentinel: a value is only ever
written when `tentative < g_score.get(key, 1 << 60)`. -/
def GBoundInv (st : AState) : Prop :=
  ∀ v gv, alookup st.g_score v = some gv → gv ≤ BIG - 1

def AStarCore (pol : NeighborPolicy) (bounds : Int × Int × Int × Int)
    (start goal : Node) (st : AState) : Prop :=
  GStartInv start st ∧ ClosedBoundInv pol bounds start st ∧
  OpenEntryInv goal st ∧ EntryGInv start goal st

def AStarInv (pol : NeighborPolicy) (bounds : Int × Int × Int × Int)
    (start goal : Node) (st : AState) : Prop :=
  AStarCore pol bounds start goal st ∧
  ∀ v ∈ st.closed, RelaxedFor pol bounds st v

/-! ## src/scripts/cluster/db_context.py: the read-only write guard

SQL text is modelled as its character list.  `str.lstrip()` is modelled over
the ASCII whitespace characters; `str.upper()` by per-character `toUpper`
(the statements at issue are ASCII). -/

def isPySpace (c : Char) : Bool :=
  c = ' ' || c = '\t' || c = '\n' || c = '\r' || c = '\x0b' || c = '\x0c'

/-- `sql.lstrip().upper()` from `_assert_safe`. -/
def leadingOf (sql : List Char) : List Char :=
  (sql.dropWhile isPySpace).map Char.toUpper

/-- The tuple passed to `startswith` in `_assert_safe` (note the trailing
space carried by the PRAGMA element in the source). -/
def WRITE_VERBS : List (List Char) :=
  ["INSERT".data, "UPDATE".data, "DELETE".data, "REPLACE".data, "CREATE".data,
   "DROP".data, "ALTER".data, "VACUUM".data, "PRAGMA ".data]

/-- `DbContext._assert_safe`: returns true when `PermissionError` is raised. -/
def assertSafeRejects (read_only : Bool) (sql : List Char) : Bool :=
  if !read_only then false
  else WRITE_VERBS.any fun v => v.isPrefixOf (leadingOf sql)

/-- `DbContext.execute`: `_assert_safe` runs before the statement does. -/
def dbExecute (read_only : Bool) (sql : List Char) : Except String Unit :=
  if assertSafeRejects read_only sql then
    Except.error "Write operation attempted in read-only DbContext"
  else Except.ok ()

/-- The claim's notion of first keyword: the maximal leading run of letters
after stripping leading whitespace, compared case-insensitively. -/
def firstKeyword (sql : List Char) : List Char :=
  (leadingOf sql).takeWhile Char.isAlpha

/-! ## Concrete stores used as evaluation inputs -/

/-- Two stacked walkable tiles; the upper one forbids entry from below
(`walk_data.top = false`). -/
def dbC2 : Db :=
  { tiles :=
      [ { x := 0, y := 0, plane := 0, chunk_x := 0, chunk_z := 0,
          blocked := some 0, walk_mask := some 1, walk_data := WalkDataCol.null },
        { x := 0, y := 1, plane := 0, chunk_x := 0, chunk_z := 0,
          blocked := some 0, walk_mask := some 1,
          walk_data := WalkDataCol.obj [("top", false)] } ],
    chunks := [], entrances := [], jps_present := false, jps_jump := [] }

/-- A single walkable tile whose `walk_data` text fails to parse as JSON. -/
def dbC7 : Db :=
  { tiles :=
      [ { x := 5, y := 5, plane := 0, chunk_x := 0, chunk_z := 0,
          blocked := some 0, walk_mask := some 1, walk_data := WalkDataCol.corrupt } ],
    chunks := [], entrances := [], jps_present := false, jps_jump := [] }

/-- One entrance whose tile does not exist; scope covers chunk (0,0) only. -/
def dbC6 : Db :=
  { tiles := [], chunks := [],
    entrances :=
      [ { entrance_id := 1, chunk_x := 0, chunk_z := 0, plane := 0,
          x := 0, y := 0, neighbor_dir := D4.N } ],
    jps_present := false, jps_jump := [] }

/-- A symmetric pre-run interconnection table with the edge pair 1-2. -/
def t0C6 : Inter :=
  fun k => if k = (1, 2) then some 1 else if k = (2, 1) then some 1 else none

/-- Spec scenario S1 in miniature: two adjacent walkable tiles in chunks
(0,0) and (1,0) of size 1, with matching E/W entrances. -/
def dbS1 : Db :=
  { tiles :=
      [ { x := 0, y := 0, plane := 0, chunk_x := 0, chunk_z := 0,
          blocked := some 0, walk_mask := some 1, walk_data := WalkDataCol.null },
        { x := 1, y := 0, plane := 0, chunk_x := 1, chunk_z := 0,
          blocked := some 0, walk_mask := some 1, walk_data := WalkDataCol.null } ],
    chunks := [(0, 0, 1), (1, 0, 1)],
    entrances :=
      [ { entrance_id := 1, chunk_x := 0, chunk_z := 0, plane := 0,
          x := 0, y := 0, neighbor_dir := D4.E },
        { entrance_id := 2, chunk_x := 1, chunk_z := 0, plane := 0,
          x := 1, y := 0, neighbor_dir := D4.W } ],
    jps_present := false, jps_jump := [] }

/-- A fully walkable 3 by 3 chunk (chunk (0,0) of size 3) with a JPS jump
table sending (0,0) to the detour target (0,2). -/
def dbJps : Db :=
  { tiles :=
      ([0, 1, 2] : List Int).bind fun ty =>
        ([0, 1, 2] : List Int).map fun tx =>
          { x := tx, y := ty, plane := 0, chunk_x := 0, chunk_z := 0,
            blocked := some 0, walk_mask := some 1, walk_data := WalkDataCol.null },
    chunks := [(0, 0, 3)],
    entrances := [],
    jps_present := true,
    jps_jump := [{ x := 0, y := 0, plane := 0, next_x := some 0, next_y := some 2 }] }

/-- The same grid without JPS tables. -/
def dbNoJps : Db :=
  { dbJps with jps_present := false, jps_jump := [] }

def pJps : NeighborPolicy :=
  { allow_diagonals := 1, allow_corner_cut := 1, unit_radius_tiles := 0,
    conn := dbJps, walkable_cb := none }

def pNoJps : NeighborPolicy :=
  { allow_diagonals := 1, allow_corner_cut := 1, unit_radius_tiles := 0,
    conn := dbNoJps, walkable_cb := none }

/-- The local-cache walkability callback the intra-connector builds for
chunk (0,0), plane 0 of `dbJps`. -/
def cbJps : Int → Int → Int → Bool :=
  makeWalkableCb dbJps (chunkBounds 0 0 3) 0 (buildLocalWalkable dbJps 0 0 0)

def cbNoJps : Int → Int → Int → Bool :=
  makeWalkableCb dbNoJps (chunkBounds 0 0 3) 0 (buildLocalWalkable dbNoJps 0 0 0)

/-- A fully walkable 3 by 3 block of tiles centered at the origin. -/
def dbC3 : Db :=
  { tiles :=
      ([-1, 0, 1] : List Int).bind fun ty =>
        ([-1, 0, 1] : List Int).map fun tx =>
          { x := tx, y := ty, plane := 0, chunk_x := 0, chunk_z := 0,
            blocked := some 0, walk_mask := some 1, walk_data := WalkDataCol.null },
    chunks := [], entrances := [], jps_present := false, jps_jump := [] }

/-- A policy over `dbC3` with diagonals and corner cutting enabled. -/
def pC3 : NeighborPolicy :=
  { allow_diagonals := 1, allow_corner_cut := 1, unit_radius_tiles := 0,
    conn := dbC3, walkable_cb := none }

end RS3


namespace RS3

/-! ## Helper lemmas -/

@[simp] theorem alookup_aset {α β : Type} [DecidableEq α]
    (m : List (α × β)) (k k' : α) (v : β) :
    alookup (aset m k v) k' = if k' = k then some v else alookup m k' := by
  simp [aset, alookup]

theorem tileAt_coords {db : Db} {x y plane : Int} {t : TileRow}
    (h : tileAt db x y plane = some t) : t.x = x ∧ t.y = y ∧ t.plane = plane := by
  have := List.find?_some h
  simpa using of_decide_eq_true this

theorem find?_map_coords (f : TileRow → TileRow)
    (hf : ∀ t, (f t).x = t.x ∧ (f t).y = t.y ∧ (f t).plane = t.plane)
    (l : List TileRow) (X Y P : Int) :
    (l.map f).find? (fun t => decide (t.x = X ∧ t.y = Y ∧ t.plane = P)) =
      (l.find? (fun t => decide (t.x = X ∧ t.y = Y ∧ t.plane = P))).map f := by
  induction l with
  | nil => rfl
  | cons t rest ih =>
      have hpred : (decide ((f t).x = X ∧ (f t).y = Y ∧ (f t).plane = P)) =
          (decide (t.x = X ∧ t.y = Y ∧ t.plane = P)) := by
        rw [(hf t).1, (hf t).2.1, (hf t).2.2]
      simp only [List.map_cons, List.find?]
      rw [hpred]
      cases hdec : decide (t.x = X ∧ t.y = Y ∧ t.plane = P) with
      | true => rfl
      | false => exact ih

theorem tileAt_setWalkData (db : Db) (x y plane : Int) (w : WalkDataCol)
    (X Y P : Int) :
    tileAt (setWalkData db x y plane w) X Y P =
      (tileAt db X Y P).map fun t =>
        if t.x = x ∧ t.y = y ∧ t.plane = plane then { t with walk_data := w } else t := by
  unfold tileAt setWalkData
  exact find?_map_coords _
    (fun t => by by_cases h : t.x = x ∧ t.y = y ∧ t.plane = plane <;> simp [h])
    db.tiles X Y P

/-- With the first row at `(x, y, plane)` carrying corrupt `walk_data`, the
flag map the crossing test sees is unchanged by rewriting that column to the
empty JSON object. -/
theorem walk_flags_corrupt_as_empty {db : Db} {x y plane : Int} {t : TileRow}
    (ht : tileAt db x y plane = some t) (hc : t.walk_data = WalkDataCol.corrupt)
    (X Y P : Int) :
    (ED_get_walk_flags (setWalkData db x y plane (WalkDataCol.obj [])) X Y P).getD [] =
      (ED_get_walk_flags db X Y P).getD [] := by
  unfold ED_get_walk_flags
  rw [tileAt_setWalkData]
  cases hfind : tileAt db X Y P with
  | none => rfl
  | some t' =>
      by_cases hmatch : t'.x = x ∧ t'.y = y ∧ t'.plane = plane
      · have hco := tileAt_coords hfind
        have hx : X = x := by rw [← hco.1, hmatch.1]
        have hy : Y = y := by rw [← hco.2.1, hmatch.2.1]
        have hp : P = plane := by rw [← hco.2.2, hmatch.2.2]
        subst hx; subst hy; subst hp
        have ht' : t' = t := by rw [ht] at hfind; exact (Option.some_injective _ hfind).symm
        subst ht'
        simp [hmatch, hc]
      · simp [hmatch]

end RS3

/-- C10: for every 8-bit integer m, `encode_walk_mask (decode_walk_mask m) = m`,
with `decode_walk_mask` mapping bit i to the i-th name of `DIRECTION_BITS`
(left, bottom, right, top, topleft, bottomleft, bottomright, topright). -/
theorem C10_encode_decode_roundtrip (m : Nat) (h : m ≤ 255) :
    RS3.encode_walk_mask (RS3.decode_walk_mask m) = m := by
  have hlt : m < 256 := Nat.lt_succ_of_le h
  have : ∀ k : Fin 256, RS3.encode_walk_mask (RS3.decode_walk_mask k.val) = k.val := by decide
  exact this ⟨m, hlt⟩

/-- C10 witness: the round-trip theorem applied at the concrete mask 13. -/
theorem C10_encode_decode_roundtrip_witness :
    RS3.encode_walk_mask (RS3.decode_walk_mask 13) = 13 :=
  C10_encode_decode_roundtrip 13 (by decide)

/-- C9: the four separately defined walkability checks (entrance discovery,
inter-connector, intra-connector, and the Neighbor Policy database fallback)
are extensionally equal: each returns true iff a tiles row exists at the
coordinate with blocked = 0 and walk_mask different from 0, NULL blocked
counting as 1, NULL walk_mask as 0, and a missing row yielding false. -/
theorem C9_walkability_checks_agree (db : RS3.Db) (x y plane : Int) :
    (RS3.ED_is_walkable db x y plane = true ↔ RS3.walkableSpec db x y plane) ∧
    (RS3.INTER_is_walkable db x y plane = true ↔ RS3.walkableSpec db x y plane) ∧
    (RS3.INTRA_is_walkable db x y plane = true ↔ RS3.walkableSpec db x y plane) ∧
    (RS3.NP_is_walkable_db db x y plane = true ↔ RS3.walkableSpec db x y plane) := by
  refine ⟨?_, ?_, ?_, ?_⟩ <;>
    · simp only [RS3.ED_is_walkable, RS3.INTER_is_walkable, RS3.INTRA_is_walkable,
        RS3.NP_is_walkable_db, RS3.walkableSpec]
      cases h : RS3.tileAt db x y plane with
      | none => simp
      | some row =>
          by_cases hb : row.blocked.getD 1 = 0 <;> simp [hb]

/-- C2 (divergence witness): in entrance discovery, for direction N the
claimed external tile is (x, y+1) with crossing test a.bottom AND b.top.
On `dbC2` the tile (0,1,0) has top = false, so that test is false — the
inter-connector copy of the test computes false — yet
`entrance_discovery._can_cross` returns true, because it reads the flags of
(0, -1, 0) instead of (0, 1, 0). -/
theorem C2_vertical_crossing_reads_wrong_tile :
    RS3.ED_can_cross RS3.dbC2 0 0 0 RS3.D4.N = true ∧
    RS3.INTER_can_cross RS3.dbC2 0 0 0 RS3.D4.N = false := by
  constructor <;> rfl

/-- C7: a tiles row whose walk_data is present but fails to parse as JSON
behaves exactly as an empty flag map: `_get_walk_flags` returns None, every
crossing test is unchanged when the corrupt column is replaced by the empty
JSON object (so all four flags default TRUE), and walkability never depends
on the walk_data column at all. -/
theorem C7_corrupt_walk_data_defaults (db : RS3.Db) (x y plane : Int)
    (t : RS3.TileRow) (ht : RS3.tileAt db x y plane = some t)
    (hc : t.walk_data = RS3.WalkDataCol.corrupt) :
    RS3.ED_get_walk_flags db x y plane = none ∧
    (∀ X Y P : Int, ∀ d : RS3.D4,
      RS3.ED_can_cross (RS3.setWalkData db x y plane (RS3.WalkDataCol.obj [])) X Y P d =
        RS3.ED_can_cross db X Y P d) ∧
    (∀ w : RS3.WalkDataCol, ∀ X Y P : Int,
      RS3.ED_is_walkable (RS3.setWalkData db x y plane w) X Y P =
        RS3.ED_is_walkable db X Y P) := by
  refine ⟨?_, ?_, ?_⟩
  · simp [RS3.ED_get_walk_flags, ht, hc]
  · intro X Y P d
    cases d <;>
      · simp only [RS3.ED_can_cross]
        rw [RS3.walk_flags_corrupt_as_empty ht hc, RS3.walk_flags_corrupt_as_empty ht hc]
  · intro w X Y P
    simp only [RS3.ED_is_walkable]
    rw [RS3.tileAt_setWalkData]
    cases hfind : RS3.tileAt db X Y P with
    | none => rfl
    | some t' =>
        by_cases hmatch : t'.x = x ∧ t'.y = y ∧ t'.plane = plane <;> simp [hmatch]

/-- C7 witness: the corrupt-walk_data theorem applied to the concrete store
`dbC7` at tile (5,5,0). -/
theorem C7_corrupt_walk_data_defaults_witness :
    RS3.ED_get_walk_flags RS3.dbC7 5 5 0 = none :=
  (C7_corrupt_walk_data_defaults RS3.dbC7 5 5 0
    { x := 5, y := 5, plane := 0, chunk_x := 0, chunk_z := 0,
      blocked := some 0, walk_mask := some 1, walk_data := RS3.WalkDataCol.corrupt }
    rfl rfl).1

namespace RS3

theorem rejects_of_verb_prefix (sql : List Char) (v : List Char)
    (hv : v ∈ WRITE_VERBS) (h : v.isPrefixOf (leadingOf sql) = true) :
    assertSafeRejects true sql = true := by
  unfold assertSafeRejects
  simp only [Bool.not_true, if_false]
  exact List.any_eq_true.mpr ⟨v, hv, h⟩

theorem firstKeyword_isPrefixOf (sql : List Char) :
    (firstKeyword sql).isPrefixOf (leadingOf sql) = true := by
  have h : firstKeyword sql <+: leadingOf sql := List.takeWhile_prefix _
  exact List.isPrefixOf_iff_prefix.mpr h

end RS3

/-- C8 counterexample: the statement `PRAGMA<TAB>journal_mode=DELETE` has
first keyword PRAGMA, a write verb, yet in read-only mode `_assert_safe`
does not reject it (its `startswith` tuple carries `"PRAGMA "` with a
trailing space) and the statement executes. -/
theorem C8_pragma_tab_not_rejected :
    RS3.firstKeyword "PRAGMA\tjournal_mode=DELETE".data = "PRAGMA".data ∧
    RS3.assertSafeRejects true "PRAGMA\tjournal_mode=DELETE".data = false ∧
    RS3.dbExecute true "PRAGMA\tjournal_mode=DELETE".data = Except.ok () := by
  refine ⟨by decide, by decide, rfl⟩

/-- C8 as amended: in read-only mode any statement whose first keyword
(after leading whitespace, case-insensitively) is INSERT, UPDATE, DELETE,
REPLACE, CREATE, DROP, ALTER or VACUUM is rejected with an error before it
runs; a statement whose stripped uppercased text starts with `PRAGMA `
(keyword followed by a space character) is likewise rejected; in
non-read-only mode no rejection occurs. -/
theorem C8_readonly_guard (sql : List Char) :
    (RS3.firstKeyword sql ∈
        (["INSERT".data, "UPDATE".data, "DELETE".data, "REPLACE".data,
          "CREATE".data, "DROP".data, "ALTER".data, "VACUUM".data] : List (List Char)) →
      RS3.dbExecute true sql =
        Except.error "Write operation attempted in read-only DbContext") ∧
    (("PRAGMA ".data).isPrefixOf (RS3.leadingOf sql) = true →
      RS3.dbExecute true sql =
        Except.error "Write operation attempted in read-only DbContext") ∧
    RS3.dbExecute false sql = Except.ok () := by
  refine ⟨?_, ?_, rfl⟩
  · intro h
    have hrej : RS3.assertSafeRejects true sql = true := by
      have hpre := RS3.firstKeyword_isPrefixOf sql
      simp only [List.mem_cons, List.not_mem_nil, or_false] at h
      rcases h with h | h | h | h | h | h | h | h <;>
        exact RS3.rejects_of_verb_prefix sql _ (by decide) (h ▸ hpre)
    simp [RS3.dbExecute, hrej]
  · intro h
    have hrej : RS3.assertSafeRejects true sql = true :=
      RS3.rejects_of_verb_prefix sql _ (by decide) h
    simp [RS3.dbExecute, hrej]

/-- C8 witness: the guard theorem applied to the statement `DELETE FROM tiles`. -/
theorem C8_readonly_guard_witness :
    RS3.dbExecute true "DELETE FROM tiles".data =
      Except.error "Write operation attempted in read-only DbContext" :=
  (C8_readonly_guard "DELETE FROM tiles".data).1 (by decide)

namespace RS3

theorem foldl_if_append {α β : Type} (c : α → Bool) (v : α → β)
    (l : List α) (acc : List β) :
    l.foldl (fun res d => if c d then res ++ [v d] else res) acc =
      acc ++ l.filterMap (fun d => if c d then some (v d) else none) := by
  induction l generalizing acc with
  | nil => simp
  | cons a l ih =>
      by_cases h : c a = true
      · simp [List.foldl_cons, h, ih, List.filterMap_cons]
      · simp only [Bool.not_eq_true] at h
        simp [List.foldl_cons, h, ih, List.filterMap_cons]

theorem canStep_eq (p : NeighborPolicy) (x y nx ny plane : Int) (corner : Bool) :
    p.canStep x y nx ny plane corner =
      (p.isWalkable nx ny plane && radiusOkSpec p nx ny plane) := by
  unfold NeighborPolicy.canStep radiusOkSpec
  by_cases hw : p.isWalkable nx ny plane = true
  · by_cases hr : p.unit_radius_tiles ≤ 0 <;> simp [hw, hr]
  · simp only [Bool.not_eq_true] at hw
    simp [hw]

end RS3

namespace RS3

theorem neighbors_amended_eq (p : RS3.NeighborPolicy) (x y plane : Int) :
    p.neighbors x y plane = RS3.neighborsAmended p x y plane := by
  unfold RS3.NeighborPolicy.neighbors RS3.neighborsAmended
  simp only [RS3.foldl_if_append, List.nil_append]
  by_cases hd : p.allow_diagonals ≠ 0
  · simp only [if_pos hd]
    have hbody :
        (fun (res : List (Int × Int × Int)) (d : Int × Int) =>
          if p.allow_corner_cut = 0 &&
              !(p.isWalkable (x + d.1) y plane && p.isWalkable x (y + d.2) plane) then res
          else if p.canStep x y (x + d.1) (y + d.2) plane true then
            res ++ [(x + d.1, y + d.2, plane)]
          else res) =
        (fun (res : List (Int × Int × Int)) (d : Int × Int) =>
          if (!(p.allow_corner_cut = 0 &&
                  !(p.isWalkable (x + d.1) y plane && p.isWalkable x (y + d.2) plane))) &&
              p.canStep x y (x + d.1) (y + d.2) plane true then
            res ++ [(x + d.1, y + d.2, plane)]
          else res) := by
      funext res d
      cases hcc : (decide (p.allow_corner_cut = 0) &&
          !(p.isWalkable (x + d.1) y plane && p.isWalkable x (y + d.2) plane)) with
      | true => simp
      | false =>
          cases hB : p.canStep x y (x + d.1) (y + d.2) plane true <;> simp
    rw [hbody, RS3.foldl_if_append]
    congr 1
    · apply List.filterMap_congr
      intro d _
      rw [RS3.canStep_eq]
    · apply List.filterMap_congr
      intro d _
      rw [RS3.canStep_eq]
  · simp only [if_neg hd]
    rw [List.append_nil]
    apply List.filterMap_congr
    intro d _
    rw [RS3.canStep_eq]

end RS3

/-- C3 as amended: `NeighborPolicy.neighbors` returns candidates in the
deterministic order given by the offsets `(0,-1), (1,0), (0,1), (-1,0)` —
that is S, E, N, W under Convention B — followed, only when
`allow_diagonals` is set, by `(1,-1), (1,1), (-1,1), (-1,-1)` — SE, NE, NW,
SW under Convention B — filtered by the spec's admissibility rules
(walkable target, corner-cut rule, unit-radius rule). -/
theorem C3_neighbors_order (p : RS3.NeighborPolicy) (x y plane : Int) :
    p.neighbors x y plane = RS3.neighborsAmended p x y plane :=
  RS3.neighbors_amended_eq p x y plane

/-- C3 counterexample: on the all-walkable 3 by 3 block with diagonals and
corner cutting enabled, the neighbor list of the origin differs from the
order the claim prescribes (N, E, S, W then NE, SE, SW, NW under
Convention B); the code starts with (0,-1,0), the S neighbor under
Convention B, where the claim requires (0,1,0). -/
theorem C3_neighbors_order_counterexample :
    RS3.NeighborPolicy.neighbors RS3.pC3 0 0 0 ≠ RS3.neighborsClaimC3 RS3.pC3 0 0 0 := by
  decide

namespace RS3

theorem applyEdOp_touch (s : EntTable) (op : EdOp) (k : EntKey) :
    applyEdOp s op k = match edTouch op k with | some r => r | none => s k := by
  cases op with
  | del cx cz p =>
      by_cases h : k.1 = cx ∧ k.2.1 = cz ∧ k.2.2.1 = p <;>
        simp [applyEdOp, edTouch, h]
  | put key d =>
      by_cases h : k = key <;> simp [applyEdOp, edTouch, h]

theorem applyEdOps_lookup (ops : List EdOp) (s : EntTable) (k : EntKey) :
    applyEdOps s ops k =
      match lastTouch ops k with | some r => r | none => s k := by
  induction ops generalizing s with
  | nil => rfl
  | cons op rest ih =>
      show applyEdOps (applyEdOp s op) rest k = _
      rw [ih]
      cases hrest : lastTouch rest k with
      | some r => simp [lastTouch, hrest]
      | none => simp [lastTouch, hrest, applyEdOp_touch]

end RS3

/-- C5: running entrance discovery twice in succession over the same scope
(same planes and chunk range, unchanged tile store) leaves the
cluster_entrances table exactly as after the first run: the same set of
rows, with the same neighbor_dir at every key (chunk_x, chunk_z, plane, x,
y). -/
theorem C5_entrance_discovery_idempotent (db : RS3.Db)
    (planes : Option (List Int))
    (chunk_range : Option Int × Option Int × Option Int × Option Int)
    (recompute dry_run : Bool) (s : RS3.EntTable) (k : RS3.EntKey) :
    RS3.edRun db planes chunk_range recompute dry_run
        (RS3.edRun db planes chunk_range recompute dry_run s) k =
      RS3.edRun db planes chunk_range recompute dry_run s k := by
  unfold RS3.edRun
  rw [RS3.applyEdOps_lookup, RS3.applyEdOps_lookup]
  cases h : RS3.lastTouch (RS3.edOps db planes chunk_range recompute dry_run) k <;> simp

namespace RS3

theorem upsertMinCost_apply (t : Inter) (key : Int × Int) (c : Int) (k : Int × Int) :
    upsertMinCost t key c k = if k = key then mergeCost c (t key) else t k := by
  unfold upsertMinCost mergeCost
  rfl

theorem mergeCost_one_stable (w v : Option Int)
    (h : v = w ∨ v = mergeCost 1 w) : mergeCost 1 v = mergeCost 1 w := by
  rcases h with h | h
  · rw [h]
  · subst h
    cases w with
    | none => rfl
    | some c0 => simp [mergeCost, min_assoc]

theorem upsertPair_symm (t : Inter) (hs : InterSymm t) (a b c : Int) :
    InterSymm (upsertMinCost (upsertMinCost t (a, b) c) (b, a) c) := by
  intro p q
  simp only [upsertMinCost_apply]
  by_cases hba : ((b, a) : Int × Int) = (a, b)
  · have hb : b = a := congrArg Prod.fst hba
    rw [hb]
    by_cases hk1 : ((p, q) : Int × Int) = (a, a)
    · have hqp : ((q, p) : Int × Int) = (a, a) := by
        have hp : p = a := congrArg Prod.fst hk1
        have hq : q = a := congrArg Prod.snd hk1
        rw [hp, hq]
      rw [if_pos hk1, if_pos hqp]
    · have hqp : ((q, p) : Int × Int) ≠ (a, a) := by
        intro hc
        apply hk1
        have hq : q = a := congrArg Prod.fst hc
        have hp : p = a := congrArg Prod.snd hc
        rw [hp, hq]
      rw [if_neg hk1, if_neg hk1, if_neg hqp, if_neg hqp]
      exact hs p q
  · simp only [if_neg hba]
    by_cases hk1 : ((p, q) : Int × Int) = (b, a)
    · have hqp : ((q, p) : Int × Int) = (a, b) := by
        have hp : p = b := congrArg Prod.fst hk1
        have hq : q = a := congrArg Prod.snd hk1
        rw [hp, hq]
      have h1 : ((q, p) : Int × Int) ≠ (b, a) := by
        rw [hqp]
        exact fun hc => hba hc.symm
      rw [if_pos hk1, if_neg h1, if_pos hqp, hs b a]
    · by_cases hk2 : ((p, q) : Int × Int) = (a, b)
      · have hqp : ((q, p) : Int × Int) = (b, a) := by
          have hp : p = a := congrArg Prod.fst hk2
          have hq : q = b := congrArg Prod.snd hk2
          rw [hp, hq]
        rw [if_neg hk1, if_pos hk2, if_pos hqp, hs a b]
      · have hk3 : ((q, p) : Int × Int) ≠ (b, a) := by
          intro hc
          apply hk2
          have hq : q = b := congrArg Prod.fst hc
          have hp : p = a := congrArg Prod.snd hc
          rw [hp, hq]
        have hk4 : ((q, p) : Int × Int) ≠ (a, b) := by
          intro hc
          apply hk1
          have hq : q = a := congrArg Prod.fst hc
          have hp : p = b := congrArg Prod.snd hc
          rw [hp, hq]
        rw [if_neg hk1, if_neg hk2, if_neg hk3, if_neg hk4]
        exact hs p q

theorem upsertPair_evolved (t t' : Inter) (a b : Int)
    (h : InterEvolved t t') :
    InterEvolved t (upsertMinCost (upsertMinCost t' (a, b) 1) (b, a) 1) := by
  intro k
  simp only [upsertMinCost_apply]
  by_cases hba : ((b, a) : Int × Int) = (a, b)
  · simp only [if_pos hba]
    by_cases hk1 : k = ((b : Int), (a : Int))
    · rw [if_pos hk1]
      have hk : k = ((a : Int), (b : Int)) := hk1.trans hba
      right
      have s1 : mergeCost 1 (t' (a, b)) = mergeCost 1 (t (a, b)) :=
        mergeCost_one_stable _ _ (hk ▸ h k)
      have s2 : mergeCost 1 (mergeCost 1 (t' (a, b))) = mergeCost 1 (t (a, b)) :=
        mergeCost_one_stable _ _ (Or.inr s1)
      rw [hk, s2]
    · rw [if_neg hk1]
      by_cases hk2 : k = ((a : Int), (b : Int))
      · rw [if_pos hk2]
        right
        have s1 : mergeCost 1 (t' (a, b)) = mergeCost 1 (t (a, b)) :=
          mergeCost_one_stable _ _ (hk2 ▸ h k)
        rw [hk2, s1]
      · rw [if_neg hk2]
        exact h k
  · simp only [if_neg hba]
    by_cases hk1 : k = ((b : Int), (a : Int))
    · rw [if_pos hk1]
      right
      have s1 : mergeCost 1 (t' (b, a)) = mergeCost 1 (t (b, a)) :=
        mergeCost_one_stable _ _ (hk1 ▸ h k)
      rw [hk1, s1]
    · rw [if_neg hk1]
      by_cases hk2 : k = ((a : Int), (b : Int))
      · rw [if_pos hk2]
        right
        have s1 : mergeCost 1 (t' (a, b)) = mergeCost 1 (t (a, b)) :=
          mergeCost_one_stable _ _ (hk2 ▸ h k)
        rw [hk2, s1]
      · rw [if_neg hk2]
        exact h k

end RS3

namespace RS3

theorem foldl_preserve {α β : Type} (f : β → α → β) (P : β → Prop)
    (hstep : ∀ acc e, P acc → P (f acc e)) :
    ∀ (l : List α) (init : β), P init → P (l.foldl f init) := by
  intro l
  induction l with
  | nil => intro init h; exact h
  | cons e rest ih =>
      intro init h
      exact ih (f init e) (hstep init e h)

theorem interStep_preserves (db : Db) (dry_run : Bool) (t : Inter)
    (acc : Inter) (e : EntranceRow)
    (h : InterSymm acc ∧ InterEvolved t acc) :
    InterSymm (interStep db dry_run acc e) ∧
      InterEvolved t (interStep db dry_run acc e) := by
  unfold interStep
  cases hW1 : INTER_is_walkable db e.x e.y e.plane with
  | false => simpa [hW1] using h
  | true =>
      cases hW2 : INTER_is_walkable db (e.x + (DIR_DELTA e.neighbor_dir).1)
          (e.y + (DIR_DELTA e.neighbor_dir).2) e.plane with
      | false => simpa [hW1, hW2] using h
      | true =>
          cases hC : INTER_can_cross db e.x e.y e.plane e.neighbor_dir with
          | false => simpa [hW1, hW2, hC] using h
          | true =>
              simp only [hW1, hW2, hC, Bool.not_true, Bool.false_eq_true,
                if_false]
              cases hOpp : findOpposingEntrance db e.x e.y e.plane
                  (neighborChunk e.chunk_x e.chunk_z e.neighbor_dir).1
                  (neighborChunk e.chunk_x e.chunk_z e.neighbor_dir).2
                  (OPPOSITE e.neighbor_dir) (DIR_DELTA e.neighbor_dir).1
                  (DIR_DELTA e.neighbor_dir).2 with
              | none => exact h
              | some opp_id =>
                  cases dry_run with
                  | true => simpa using h
                  | false =>
                      simp only [Bool.false_eq_true, if_false]
                      exact ⟨upsertPair_symm acc h.1 e.entrance_id opp_id 1,
                        upsertPair_evolved t acc e.entrance_id opp_id h.2⟩

end RS3

/-- C6 counterexample: a completed run does not always leave
cluster_interconnections symmetric.  On `dbC6` (scope = chunk (0,0), which
contains only entrance 1, whose tile is not walkable) a recompute run
deletes the edge (1,2) of the symmetric pre-state `t0C6` but keeps (2,1),
and writes nothing, so the table ends asymmetric. -/
theorem C6_inter_symmetry_counterexample :
    RS3.interRun RS3.dbC6 none (some 0, some 0, some 0, some 0) true false
        RS3.t0C6 (2, 1) = some 1 ∧
    RS3.interRun RS3.dbC6 none (some 0, some 0, some 0, some 0) true false
        RS3.t0C6 (1, 2) = none := by
  constructor <;> rfl

/-- C6 as amended: for a run with recompute off, started from a symmetric
cluster_interconnections table, the table after the run is again symmetric
— a row (a, b, c) exists iff (b, a, c) does — and every key either keeps
its prior value or receives the unit-cost upsert: edges are written with
cost 1 and conflicts resolve to the minimum cost.  (With recompute on, the
scoped delete removes (a,b) but not (b,a) when only a is in scope, which
can leave an asymmetric table.) -/
theorem C6_inter_symmetry (db : RS3.Db) (planes : Option (List Int))
    (chunk_range : Option Int × Option Int × Option Int × Option Int)
    (dry_run : Bool) (t : RS3.Inter) (hsym : RS3.InterSymm t) :
    RS3.InterSymm (RS3.interRun db planes chunk_range false dry_run t) ∧
    RS3.InterEvolved t (RS3.interRun db planes chunk_range false dry_run t) := by
  unfold RS3.interRun
  simp only [Bool.false_and, if_false]
  exact RS3.foldl_preserve (RS3.interStep db dry_run)
    (fun acc => RS3.InterSymm acc ∧ RS3.InterEvolved t acc)
    (fun acc e h => RS3.interStep_preserves db dry_run t acc e h)
    (RS3.interSelect db planes chunk_range) t
    ⟨hsym, fun k => Or.inl rfl⟩

/-- C6 witness: the symmetry theorem applied to the S1-style store `dbS1`
starting from the empty table. -/
theorem C6_inter_symmetry_witness :
    RS3.InterSymm (RS3.interRun RS3.dbS1 none (none, none, none, none)
      false false (fun _ => none)) :=
  (C6_inter_symmetry RS3.dbS1 none (none, none, none, none) false
    (fun _ => none) (fun _ _ => rfl)).1

namespace RS3

theorem entryLe_refl (a : HeapEntry) : entryLe a a :=
  Or.inr ⟨rfl, Or.inr ⟨rfl, Or.inr ⟨rfl, le_refl _⟩⟩⟩

theorem entryLe_total (a b : HeapEntry) : entryLe a b ∨ entryLe b a := by
  obtain ⟨f1, x1, y1, p1⟩ := a
  obtain ⟨f2, x2, y2, p2⟩ := b
  simp only [entryLe, nodeLe]
  omega

theorem entryLe_trans (a b c : HeapEntry)
    (h1 : entryLe a b) (h2 : entryLe b c) : entryLe a c := by
  obtain ⟨f1, x1, y1, p1⟩ := a
  obtain ⟨f2, x2, y2, p2⟩ := b
  obtain ⟨f3, x3, y3, p3⟩ := c
  simp only [entryLe, nodeLe] at h1 h2 ⊢
  omega

theorem entryLe_fst (a b : HeapEntry) (h : entryLe a b) : a.1 ≤ b.1 := by
  rcases h with h | h
  · exact le_of_lt h
  · exact le_of_eq h.1

theorem foldl_min_mem (e : HeapEntry) (es : List HeapEntry) :
    es.foldl (fun m x => if entryLe m x then m else x) e ∈ e :: es := by
  induction es generalizing e with
  | nil => simp
  | cons x es ih =>
      simp only [List.foldl_cons]
      by_cases h : entryLe e x
      · rw [if_pos h]
        rcases List.mem_cons.mp (ih e) with h1 | h1
        · rw [h1]; exact List.mem_cons_self e (x :: es)
        · exact List.mem_cons_of_mem e (List.mem_cons_of_mem x h1)
      · rw [if_neg h]
        rcases List.mem_cons.mp (ih x) with h1 | h1
        · rw [h1]; exact List.mem_cons_of_mem e (List.mem_cons_self x es)
        · exact List.mem_cons_of_mem e (List.mem_cons_of_mem x h1)

theorem foldl_min_le (e : HeapEntry) (es : List HeapEntry) :
    ∀ x ∈ e :: es, entryLe (es.foldl (fun m y => if entryLe m y then m else y) e) x := by
  induction es generalizing e with
  | nil =>
      intro x hx
      simp only [List.mem_singleton] at hx
      rw [hx]
      exact entryLe_refl e
  | cons y es ih =>
      intro x hx
      simp only [List.foldl_cons]
      by_cases h : entryLe e y
      · rw [if_pos h]
        rcases List.mem_cons.mp hx with h1 | h1
        · rw [h1]; exact ih e e (List.mem_cons_self e es)
        · rcases List.mem_cons.mp h1 with h2 | h2
          · rw [h2]
            exact entryLe_trans _ _ _ (ih e e (List.mem_cons_self e es)) h
          · exact ih e x (List.mem_cons_of_mem e h2)
      · rw [if_neg h]
        have hy : entryLe y e := (entryLe_total e y).resolve_left h
        rcases List.mem_cons.mp hx with h1 | h1
        · rw [h1]
          exact entryLe_trans _ _ _ (ih y y (List.mem_cons_self y es)) hy
        · rcases List.mem_cons.mp h1 with h2 | h2
          · rw [h2]; exact ih y y (List.mem_cons_self y es)
          · exact ih y x (List.mem_cons_of_mem y h2)

theorem popMin_spec (heap : List HeapEntry) (e : HeapEntry)
    (rest : List HeapEntry) (h : popMin heap = some (e, rest)) :
    e ∈ heap ∧ (∀ x ∈ heap, entryLe e x) ∧ rest = heap.erase e := by
  cases heap with
  | nil => simp [popMin] at h
  | cons a es =>
      simp only [popMin, Option.some.injEq, Prod.mk.injEq] at h
      obtain ⟨hm, hr⟩ := h
      subst hm
      refine ⟨foldl_min_mem a es, foldl_min_le a es, hr.symm⟩

end RS3

/-- C4 counterexample: with two same-f entries in the open heap, the one
inserted later pops first when its node tuple is smaller.  The heap list is
in insertion order: (0,(1,1,0)) was pushed before (0,(0,0,0)), yet the pop
returns (0,(0,0,0)). -/
theorem C4_tie_insertion_order_counterexample :
    RS3.popMin [((0 : Int), ((1 : Int), (1 : Int), (0 : Int))), (0, (0, 0, 0))] =
      some ((0, (0, 0, 0)), [(0, (1, 1, 0))]) := by
  rfl

/-- C4 as amended: `heapq` entries are the tuples (f, (x, y, plane)), so a
pop returns an entry that is lexicographically least: minimal f, and among
equal f the node tuple (x, y, plane) decides — insertion order does not. -/
theorem C4_heap_pop_lex_min (heap : List RS3.HeapEntry) (e : RS3.HeapEntry)
    (rest : List RS3.HeapEntry) (h : RS3.popMin heap = some (e, rest)) :
    e ∈ heap ∧ ∀ x ∈ heap, RS3.entryLe e x := by
  have := RS3.popMin_spec heap e rest h
  exact ⟨this.1, this.2.1⟩

/-- C4 witness: the pop lemma applied to a concrete two-entry heap. -/
theorem C4_heap_pop_lex_min_witness :
    ((0 : Int), ((0 : Int), (0 : Int), (0 : Int))) ∈
      ([((0 : Int), ((1 : Int), (1 : Int), (0 : Int))), (0, (0, 0, 0))] :
        List RS3.HeapEntry) :=
  (C4_heap_pop_lex_min
    [((0 : Int), ((1 : Int), (1 : Int), (0 : Int))), (0, (0, 0, 0))]
    ((0 : Int), ((0 : Int), (0 : Int), (0 : Int)))
    [((0 : Int), ((1 : Int), (1 : Int), (0 : Int)))] rfl).1

/-- C1 counterexample: on `dbJps` the JPS jump table sends the start tile
(0,0) to the detour (0,2), so the run-configured A* (JPS expansion, the
chunk-local walkability callback) returns cost 4 between (0,0,0) and
(2,0,0), while the direct Neighbor-Policy path [(0,0,0),(1,0,0),(2,0,0)]
stays inside the chunk bounds and has Chebyshev cost 2 < 4. -/
theorem C1_astar_optimality_counterexample :
    (RS3.aStar RS3.dbJps RS3.pJps (0, 0, 0) (2, 0, 0) (RS3.chunkBounds 0 0 3)
        true (some RS3.cbJps) 100).map Prod.fst = some 4 ∧
    RS3.admittedPath (RS3.resolvePolicy RS3.pJps (some RS3.cbJps))
        (RS3.chunkBounds 0 0 3) (0, 0, 0) (2, 0, 0)
        [(0, 0, 0), (1, 0, 0), (2, 0, 0)] = true ∧
    RS3.pathCost [(0, 0, 0), (1, 0, 0), (2, 0, 0)] = 2 := by
  exact ⟨rfl, rfl, rfl⟩

namespace RS3

/-! ## Geometry and path lemmas for the A* lower bound -/

theorem cheb_nonneg (a b : Node) : 0 ≤ cheb a b := by
  simp only [cheb, chebyshevCost]
  positivity

theorem cheb_triangle (a b c : Node) : cheb a c ≤ cheb a b + cheb b c := by
  obtain ⟨ax, ay, ap⟩ := a
  obtain ⟨bx, bb, bp⟩ := b
  obtain ⟨cx, cy, cp⟩ := c
  simp only [cheb, chebyshevCost]
  omega

theorem pathCost_nonneg (l : List Node) : 0 ≤ pathCost l := by
  induction l with
  | nil => simp [pathCost]
  | cons a l ih =>
      cases l with
      | nil => simp [pathCost]
      | cons b rest =>
          have h1 := cheb_nonneg a b
          have h2 : pathCost (a :: b :: rest) = cheb a b + pathCost (b :: rest) := rfl
          omega

theorem cheb_head_le (g : Node) :
    ∀ (l : List Node) (a u : Node), (a :: l).getLast? = some u →
      cheb a g ≤ pathCost (a :: l) + cheb u g := by
  intro l
  induction l with
  | nil =>
      intro a u h
      simp only [List.getLast?_singleton, Option.some.injEq] at h
      subst h
      simp [pathCost]
  | cons b rest ih =>
      intro a u h
      rw [List.getLast?_cons_cons] at h
      have hb := ih b u h
      have htri := cheb_triangle a b g
      have hc : pathCost (a :: b :: rest) = cheb a b + pathCost (b :: rest) := rfl
      omega

theorem pathCost_append (x : Node) (l2 : List Node) :
    ∀ l1 : List Node,
      pathCost (l1 ++ x :: l2) = pathCost (l1 ++ [x]) + pathCost (x :: l2) := by
  intro l1
  induction l1 with
  | nil => simp [pathCost]
  | cons a l1 ih =>
      cases l1 with
      | nil =>
          have h1 : pathCost ([a] ++ x :: l2) = cheb a x + pathCost (x :: l2) := rfl
          have h2 : pathCost ([a] ++ [x]) = cheb a x + pathCost [x] := rfl
          have h3 : pathCost [x] = 0 := rfl
          omega
      | cons b l1' =>
          have h1 : pathCost ((a :: b :: l1') ++ x :: l2) =
              cheb a b + pathCost ((b :: l1') ++ x :: l2) := rfl
          have h2 : pathCost ((a :: b :: l1') ++ [x]) =
              cheb a b + pathCost ((b :: l1') ++ [x]) := rfl
          omega

theorem stepsOk_iff (pol : NeighborPolicy) (bounds : Int × Int × Int × Int) :
    ∀ l : List Node, stepsOk pol bounds l = true ↔ StepsOkP pol bounds l := by
  intro l
  induction l with
  | nil => simp [stepsOk, StepsOkP]
  | cons a l ih =>
      cases l with
      | nil => simp [stepsOk, StepsOkP]
      | cons b rest =>
          have hunf : stepsOk pol bounds (a :: b :: rest) =
              (inBounds a.1 a.2.1 bounds &&
                decide (b ∈ pol.neighbors a.1 a.2.1 a.2.2) &&
                stepsOk pol bounds (b :: rest)) := rfl
          rw [hunf]
          simp only [Bool.and_eq_true, decide_eq_true_eq, ih, StepsOkP,
            List.chain'_cons, List.mem_cons]
          constructor
          · rintro ⟨⟨ha, hmem⟩, ⟨hb, hch⟩⟩
            refine ⟨?_, hmem, hch⟩
            rintro v (rfl | hv)
            · exact ha
            · exact hb v hv
          · rintro ⟨hall, hmem, hch⟩
            exact ⟨⟨hall a (Or.inl rfl), hmem⟩,
              ⟨fun v hv => hall v (Or.inr hv), hch⟩⟩

theorem admittedPath_iff (pol : NeighborPolicy) (bounds : Int × Int × Int × Int)
    (s g : Node) (path : List Node) :
    admittedPath pol bounds s g path = true ↔
      path.head? = some s ∧ path.getLast? = some g ∧
      (∀ v ∈ path, inBounds v.1 v.2.1 bounds = true) ∧
      List.Chain' (fun a b => b ∈ pol.neighbors a.1 a.2.1 a.2.2) path := by
  unfold admittedPath
  rw [Bool.and_eq_true, Bool.and_eq_true, stepsOk_iff]
  simp [StepsOkP, and_assoc]

theorem head?_append_cons (x : Node) (l : List Node) :
    ∀ A : List Node, (A ++ x :: l).head? = (A ++ [x]).head? := by
  intro A
  cases A <;> rfl

theorem exists_transition (closed : List Node) :
    ∀ (l : List Node) (u : Node), l.getLast? = some u → u ∉ closed →
      (∃ h rest, l = h :: rest ∧ h ∉ closed) ∨
      (∃ A x y B, l = A ++ x :: y :: B ∧ x ∈ closed ∧ y ∉ closed) := by
  intro l
  induction l with
  | nil => intro u h; simp at h
  | cons a l ih =>
      intro u hlast hu
      by_cases ha : a ∈ closed
      · cases l with
        | nil =>
            simp only [List.getLast?_singleton, Option.some.injEq] at hlast
            exact absurd (hlast ▸ ha) hu
        | cons b l' =>
            rw [List.getLast?_cons_cons] at hlast
            rcases ih u hlast hu with ⟨h, rest, heq, hh⟩ | ⟨A, x, y, B, heq, hx, hy⟩
            · right
              refine ⟨[], a, h, rest, ?_, ha, hh⟩
              simp [heq]
            · right
              refine ⟨a :: A, x, y, B, ?_, hx, hy⟩
              simp [heq]
      · left
        exact ⟨a, l, rfl, ha⟩

end RS3

namespace RS3

/-! ## Neighbor-list structure lemmas -/

theorem expand_no_jps (conn : Db) (pol : NeighborPolicy) (x y plane : Int)
    (cb : Option (Int → Int → Int → Bool)) (h : conn.jps_present = false) :
    expand_with_jps conn pol x y plane cb = pol.neighbors x y plane := by
  unfold expand_with_jps
  rw [h]
  simp

theorem neighbors_mem_shape (p : NeighborPolicy) (x y plane : Int) (w : Node)
    (hw : w ∈ p.neighbors x y plane) :
    ∃ d : Int × Int,
      d ∈ ([(0, -1), (1, 0), (0, 1), (-1, 0),
            (1, -1), (1, 1), (-1, 1), (-1, -1)] : List (Int × Int)) ∧
      w = (x + d.1, y + d.2, plane) := by
  rw [neighbors_amended_eq] at hw
  unfold neighborsAmended at hw
  simp only [List.mem_append, List.mem_filterMap] at hw
  rcases hw with ⟨d, hd, hval⟩ | hdiag
  · refine ⟨d, ?_, ?_⟩
    · simp only [List.mem_cons] at hd ⊢
      tauto
    · by_cases hc : (p.isWalkable (x + d.1) (y + d.2) plane &&
          radiusOkSpec p (x + d.1) (y + d.2) plane) = true
      · rw [if_pos hc] at hval
        exact (Option.some_injective _ hval).symm
      · rw [if_neg hc] at hval
        exact absurd hval (Option.noConfusion)
  · by_cases hall : p.allow_diagonals ≠ 0
    · rw [if_pos hall] at hdiag
      simp only [List.mem_filterMap] at hdiag
      rcases hdiag with ⟨d, hd, hval⟩
      refine ⟨d, ?_, ?_⟩
      · simp only [List.mem_cons] at hd ⊢
        tauto
      · by_cases hc : ((!(p.allow_corner_cut = 0 &&
              !(p.isWalkable (x + d.1) y plane && p.isWalkable x (y + d.2) plane))) &&
            (p.isWalkable (x + d.1) (y + d.2) plane &&
              radiusOkSpec p (x + d.1) (y + d.2) plane)) = true
        · rw [if_pos hc] at hval
          exact (Option.some_injective _ hval).symm
        · rw [if_neg hc] at hval
          exact absurd hval (Option.noConfusion)
    · rw [if_neg hall] at hdiag
      exact absurd hdiag (List.not_mem_nil w)

theorem neighbors_plane_of_mem (p : NeighborPolicy) (u : Node) (w : Node)
    (hw : w ∈ p.neighbors u.1 u.2.1 u.2.2) : w.2.2 = u.2.2 := by
  obtain ⟨d, _, hval⟩ := neighbors_mem_shape p u.1 u.2.1 u.2.2 w hw
  rw [hval]

theorem neighbors_step_pos (p : NeighborPolicy) (u : Node) (w : Node)
    (hw : w ∈ p.neighbors u.1 u.2.1 u.2.2) : 1 ≤ cheb u w := by
  obtain ⟨d, hd, hval⟩ := neighbors_mem_shape p u.1 u.2.1 u.2.2 w hw
  subst hval
  fin_cases hd <;>
    · simp only [cheb, chebyshevCost]
      omega

end RS3

namespace RS3

/-! ## The relax step: case characterization and preservation -/

theorem relax_cases (goal : Node) (bounds : Int × Int × Int × Int)
    (cur : Node) (st : AState) (nb : Node) :
    relaxNeighbor goal bounds cur st nb = st ∨
    (nb.2.2 = cur.2.2 ∧ inBounds nb.1 nb.2.1 bounds = true ∧ nb ∉ st.closed ∧
      1 ≤ cheb cur nb ∧
      (alookup st.g_score cur).getD 0 + cheb cur nb <
        (alookup st.g_score nb).getD BIG ∧
      relaxNeighbor goal bounds cur st nb =
        { open_heap := st.open_heap ++
            [((alookup st.g_score cur).getD 0 + cheb cur nb + cheb nb goal, nb)],
          g_score := aset st.g_score nb
            ((alookup st.g_score cur).getD 0 + cheb cur nb),
          f_score := aset st.f_score nb
            ((alookup st.g_score cur).getD 0 + cheb cur nb + cheb nb goal),
          came := aset st.came nb cur,
          closed := st.closed }) := by
  simp only [relaxNeighbor]
  split
  · exact Or.inl rfl
  next h1 =>
    split
    next h2 => exact Or.inl rfl
    next h2 =>
      split
      next h3 => exact Or.inl rfl
      next h3 =>
        split
        next h4 => exact Or.inl rfl
        next h4 =>
          split
          next h5 =>
            right
            refine ⟨not_not.mp h1, ?_, h3, by omega, h5, rfl⟩
            simpa using h2
          next h5 => exact Or.inl rfl

theorem relax_closed_eq (goal : Node) (bounds : Int × Int × Int × Int)
    (cur : Node) (st : AState) (nb : Node) :
    (relaxNeighbor goal bounds cur st nb).closed = st.closed := by
  rcases relax_cases goal bounds cur st nb with h | ⟨_, _, _, _, _, h⟩ <;> rw [h]

theorem relax_heap_mono (goal : Node) (bounds : Int × Int × Int × Int)
    (cur : Node) (st : AState) (nb : Node) (e : HeapEntry)
    (he : e ∈ st.open_heap) : e ∈ (relaxNeighbor goal bounds cur st nb).open_heap := by
  rcases relax_cases goal bounds cur st nb with h | ⟨_, _, _, _, _, h⟩ <;> rw [h]
  · exact he
  · exact List.mem_append_left _ he

theorem relax_g_mono (goal : Node) (bounds : Int × Int × Int × Int)
    (cur : Node) (st : AState) (nb : Node) (v : Node) (gv : Int)
    (hg : alookup st.g_score v = some gv) :
    ∃ gv', alookup (relaxNeighbor goal bounds cur st nb).g_score v = some gv' ∧
      gv' ≤ gv := by
  rcases relax_cases goal bounds cur st nb with h | ⟨_, _, _, _, hlt, h⟩ <;> rw [h]
  · exact ⟨gv, hg, le_refl gv⟩
  · by_cases hv : v = nb
    · subst hv
      refine ⟨(alookup st.g_score cur).getD 0 + cheb cur v, by simp [alookup_aset], ?_⟩
      rw [hg] at hlt
      simp only [Option.getD_some] at hlt
      exact le_of_lt hlt
    · exact ⟨gv, by simp [alookup_aset, hv, hg], le_refl gv⟩

theorem relax_g_closed_frozen (goal : Node) (bounds : Int × Int × Int × Int)
    (cur : Node) (st : AState) (nb : Node) (v : Node) (hv : v ∈ st.closed) :
    alookup (relaxNeighbor goal bounds cur st nb).g_score v =
      alookup st.g_score v := by
  rcases relax_cases goal bounds cur st nb with h | ⟨_, _, hnb, _, _, h⟩ <;> rw [h]
  have hne : v ≠ nb := fun hc => hnb (hc ▸ hv)
  simp [alookup_aset, hne]

end RS3

namespace RS3

theorem relax_g_start (goal : Node) (bounds : Int × Int × Int × Int)
    (cur : Node) (st : AState) (nb : Node) (start : Node)
    (h : GStartInv start st) :
    GStartInv start (relaxNeighbor goal bounds cur st nb) := by
  obtain ⟨g0, hg, hle⟩ := h
  obtain ⟨g0', hg', hle'⟩ := relax_g_mono goal bounds cur st nb start g0 hg
  exact ⟨g0', hg', le_trans hle' hle⟩

theorem relax_closed_bound (goal : Node) (bounds : Int × Int × Int × Int)
    (cur : Node) (st : AState) (nb : Node) (pol : NeighborPolicy) (start : Node)
    (h : ClosedBoundInv pol bounds start st) :
    ClosedBoundInv pol bounds start (relaxNeighbor goal bounds cur st nb) := by
  intro v hv path hpath hsmall
  rw [relax_closed_eq] at hv
  obtain ⟨gv, hgv, hb⟩ := h v hv path hpath hsmall
  refine ⟨gv, ?_, hb⟩
  rw [relax_g_closed_frozen goal bounds cur st nb v hv]
  exact hgv

theorem relax_open_entry (goal : Node) (bounds : Int × Int × Int × Int)
    (cur : Node) (st : AState) (nb : Node)
    (h : OpenEntryInv goal st) :
    OpenEntryInv goal (relaxNeighbor goal bounds cur st nb) := by
  intro v hv gv hgv
  rw [relax_closed_eq] at hv
  rcases relax_cases goal bounds cur st nb with heq | ⟨_, _, _, _, _, heq⟩
  · rw [heq] at hgv ⊢
    exact h v hv gv hgv
  · rw [heq] at hgv ⊢
    by_cases hvnb : v = nb
    · subst hvnb
      simp only [alookup_aset, eq_self_iff_true, if_true, Option.some.injEq] at hgv
      subst hgv
      exact ⟨(alookup st.g_score cur).getD 0 + cheb cur v + cheb v goal,
        List.mem_append_right _ (List.mem_singleton.mpr rfl), le_refl _⟩
    · simp only [alookup_aset, if_neg hvnb] at hgv
      obtain ⟨fe, hmem, hfe⟩ := h v hv gv hgv
      exact ⟨fe, List.mem_append_left _ hmem, hfe⟩

theorem relax_entry_g (goal : Node) (bounds : Int × Int × Int × Int)
    (cur : Node) (st : AState) (nb : Node) (start : Node)
    (h : EntryGInv start goal st) :
    EntryGInv start goal (relaxNeighbor goal bounds cur st nb) := by
  intro fe v hmem hvs
  rcases relax_cases goal bounds cur st nb with heq | ⟨_, _, _, _, _, heq⟩
  · rw [heq] at hmem ⊢
    exact h fe v hmem hvs
  · rw [heq] at hmem ⊢
    rcases List.mem_append.mp hmem with hold | hnew
    · obtain ⟨gv, hgv, hb⟩ := h fe v hold hvs
      by_cases hvnb : v = nb
      · subst hvnb
        refine ⟨(alookup st.g_score cur).getD 0 + cheb cur v,
          by simp [alookup_aset], ?_⟩
        rename_i hlt
        rw [hgv] at hlt
        simp only [Option.getD_some] at hlt
        omega
      · exact ⟨gv, by simp [alookup_aset, hvnb, hgv], hb⟩
    · simp only [List.mem_singleton, Prod.mk.injEq] at hnew
      obtain ⟨hfe, hv⟩ := hnew
      subst hv
      refine ⟨(alookup st.g_score cur).getD 0 + cheb cur v,
        by simp [alookup_aset], by omega⟩

theorem relax_relaxedFor (goal : Node) (bounds : Int × Int × Int × Int)
    (cur : Node) (st : AState) (nb : Node) (pol : NeighborPolicy) (v : Node)
    (hv : v ∈ st.closed) (h : RelaxedFor pol bounds st v) :
    RelaxedFor pol bounds (relaxNeighbor goal bounds cur st nb) v := by
  intro w hw hwb hwc
  rw [relax_closed_eq] at hwc
  obtain ⟨gv, hgv, hrel⟩ := h w hw hwb hwc
  refine ⟨gv, ?_, ?_⟩
  · rw [relax_g_closed_frozen goal bounds cur st nb v hv]
    exact hgv
  · intro hsmall
    obtain ⟨gw, hgw, hb⟩ := hrel hsmall
    obtain ⟨gw', hgw', hle'⟩ := relax_g_mono goal bounds cur st nb w gw hgw
    exact ⟨gw', hgw', by omega⟩

theorem relax_pair (goal : Node) (bounds : Int × Int × Int × Int)
    (cur : Node) (st : AState) (w : Node)
    (hplane : w.2.2 = cur.2.2) (hbnd : inBounds w.1 w.2.1 bounds = true)
    (hstep : 1 ≤ cheb cur w) (gu : Int)
    (hgu : alookup st.g_score cur = some gu) (hwc : w ∉ st.closed) :
    gu + cheb cur w < BIG →
    ∃ gw, alookup (relaxNeighbor goal bounds cur st w).g_score w = some gw ∧
      gw ≤ gu + cheb cur w := by
  intro hsmall
  have hplane' : ¬ (w.2.2 ≠ cur.2.2) := fun hc => hc hplane
  simp only [relaxNeighbor, hbnd, Bool.not_true, if_neg hplane']
  rw [if_neg (by simp)]
  rw [if_neg hwc]
  rw [if_neg (by omega : ¬ cheb cur w ≤ 0)]
  rw [hgu]
  simp only [Option.getD_some]
  by_cases h5 : gu + cheb cur w < (alookup st.g_score w).getD BIG
  · rw [if_pos h5]
    exact ⟨gu + cheb cur w, by simp [alookup_aset], le_refl _⟩
  · rw [if_neg h5]
    cases hg : alookup st.g_score w with
    | none =>
        rw [hg] at h5
        simp only [Option.getD_none] at h5
        omega
    | some gw_old =>
        rw [hg] at h5
        simp only [Option.getD_some] at h5
        exact ⟨gw_old, rfl, by omega⟩

end RS3

namespace RS3

/-- Folding the relax step over a neighbor list of the just-closed node u
preserves the core invariants, keeps u's g frozen, preserves relaxedness of
other closed nodes, establishes relaxedness of u for the processed
neighbors, and only lowers g values. -/
theorem relax_fold (pol : NeighborPolicy) (bounds : Int × Int × Int × Int)
    (start goal u : Node) (gu : Int) :
    ∀ (l : List Node) (st : AState),
      u ∈ st.closed →
      alookup st.g_score u = some gu →
      (∀ w ∈ l, w.2.2 = u.2.2) →
      (∀ w ∈ l, 1 ≤ cheb u w) →
      GStartInv start st →
      ClosedBoundInv pol bounds start st →
      OpenEntryInv goal st →
      EntryGInv start goal st →
      (∀ v ∈ st.closed, v ≠ u → RelaxedFor pol bounds st v) →
      ((l.foldl (relaxNeighbor goal bounds u) st).closed = st.closed ∧
       alookup (l.foldl (relaxNeighbor goal bounds u) st).g_score u = some gu ∧
       GStartInv start (l.foldl (relaxNeighbor goal bounds u) st) ∧
       ClosedBoundInv pol bounds start (l.foldl (relaxNeighbor goal bounds u) st) ∧
       OpenEntryInv goal (l.foldl (relaxNeighbor goal bounds u) st) ∧
       EntryGInv start goal (l.foldl (relaxNeighbor goal bounds u) st) ∧
       (∀ v ∈ (l.foldl (relaxNeighbor goal bounds u) st).closed, v ≠ u →
          RelaxedFor pol bounds (l.foldl (relaxNeighbor goal bounds u) st) v) ∧
       (∀ w ∈ l, inBounds w.1 w.2.1 bounds = true → w ∉ st.closed →
          gu + cheb u w < BIG →
          ∃ gw, alookup (l.foldl (relaxNeighbor goal bounds u) st).g_score w =
            some gw ∧ gw ≤ gu + cheb u w) ∧
       (∀ v gv, alookup st.g_score v = some gv →
          ∃ gv', alookup (l.foldl (relaxNeighbor goal bounds u) st).g_score v =
            some gv' ∧ gv' ≤ gv)) := by
  intro l
  induction l with
  | nil =>
      intro st hu hgu _ _ h1 h2 h3 h4 h5
      exact ⟨rfl, hgu, h1, h2, h3, h4, h5, fun w hw => absurd hw (List.not_mem_nil w),
        fun v gv hgv => ⟨gv, hgv, le_refl gv⟩⟩
  | cons w l ih =>
      intro st hu hgu hplane hstep h1 h2 h3 h4 h5
      have hw_plane : w.2.2 = u.2.2 := hplane w (List.mem_cons_self w l)
      have hw_step : 1 ≤ cheb u w := hstep w (List.mem_cons_self w l)
      have hfold : (w :: l).foldl (relaxNeighbor goal bounds u) st =
          l.foldl (relaxNeighbor goal bounds u) (relaxNeighbor goal bounds u st w) := rfl
      set st' := relaxNeighbor goal bounds u st w with hst'
      have hclosed' : st'.closed = st.closed := relax_closed_eq goal bounds u st w
      have hu' : u ∈ st'.closed := by rw [hclosed']; exact hu
      have hgu' : alookup st'.g_score u = some gu := by
        rw [hst', relax_g_closed_frozen goal bounds u st w u hu]
        exact hgu
      have ih' := ih st' hu' hgu'
        (fun v hv => hplane v (List.mem_cons_of_mem w hv))
        (fun v hv => hstep v (List.mem_cons_of_mem w hv))
        (relax_g_start goal bounds u st w start h1)
        (relax_closed_bound goal bounds u st w pol start h2)
        (relax_open_entry goal bounds u st w h3)
        (relax_entry_g goal bounds u st w start h4)
        (fun v hv hvne => by
          rw [hclosed'] at hv
          exact relax_relaxedFor goal bounds u st w pol v hv (h5 v hv hvne))
      rw [hfold]
      obtain ⟨c1, c2, c3, c4, c5, c6, c7, c8, c9⟩ := ih'
      refine ⟨by rw [c1, hclosed'], c2, c3, c4, c5, c6, c7, ?_, ?_⟩
      · intro v hv hvb hvc hsmall
        rcases List.mem_cons.mp hv with hveq | hvl
        · subst hveq
          obtain ⟨gw, hgw, hgwb⟩ :=
            relax_pair goal bounds u st v hw_plane hvb hw_step gu hgu hvc hsmall
          obtain ⟨gw', hgw', hgw'le⟩ := c9 v gw hgw
          exact ⟨gw', hgw', by omega⟩
        · have hvc' : v ∉ st'.closed := by rw [hclosed']; exact hvc
          exact c8 v hvl hvb hvc' hsmall
      · intro v gv hgv
        obtain ⟨gv1, hgv1, hle1⟩ := relax_g_mono goal bounds u st w v gv hgv
        obtain ⟨gv2, hgv2, hle2⟩ := c9 v gv1 hgv1
        exact ⟨gv2, hgv2, by omega⟩

/-- Discarding a stale heap entry (popped node already closed) preserves the
invariant. -/
theorem skip_preserves (pol : NeighborPolicy) (bounds : Int × Int × Int × Int)
    (start goal : Node) (st : AState) (entry : HeapEntry) (rest : List HeapEntry)
    (hpop : popMin st.open_heap = some (entry, rest)) (hc : entry.2 ∈ st.closed)
    (hinv : AStarInv pol bounds start goal st) :
    AStarInv pol bounds start goal { st with open_heap := rest } := by
  obtain ⟨⟨h1, h2, h3, h4⟩, h5⟩ := hinv
  obtain ⟨_, _, hrest⟩ := popMin_spec st.open_heap entry rest hpop
  subst hrest
  refine ⟨⟨h1, h2, ?_, ?_⟩, h5⟩
  · intro v hv gv hgv
    obtain ⟨fe, hfe_mem, hfe_le⟩ := h3 v hv gv hgv
    refine ⟨fe, ?_, hfe_le⟩
    have hne : (fe, v) ≠ entry := by
      intro hceq
      apply hv
      rw [← hceq] at hc
      exact hc
    exact (List.mem_erase_of_ne hne).mpr hfe_mem
  · intro fe v hmem hvs
    exact h4 fe v (List.mem_of_mem_erase hmem) hvs

/-- The key bound: when a non-closed node u is popped, its g is at most the
cost of every admitted path from start to u whose cost stays below the
sentinel. -/
theorem pop_g_bound (pol : NeighborPolicy) (bounds : Int × Int × Int × Int)
    (start goal : Node) (st : AState)
    (hinv : AStarInv pol bounds start goal st)
    (f_m : Int) (u : Node) (rest : List HeapEntry)
    (hpop : popMin st.open_heap = some ((f_m, u), rest))
    (hu : u ∉ st.closed) :
    ∃ gu, alookup st.g_score u = some gu ∧
      ∀ path, admittedPath pol bounds start u path = true →
        pathCost path ≤ BIG - 2 → gu ≤ pathCost path := by
  obtain ⟨⟨hgs, hcb, hoe, heg⟩, hrel⟩ := hinv
  obtain ⟨hmem, hmin, _⟩ := popMin_spec st.open_heap (f_m, u) rest hpop
  by_cases hus : u = start
  · subst hus
    obtain ⟨g0, hg0, hle0⟩ := hgs
    exact ⟨g0, hg0, fun path _ _ => le_trans hle0 (pathCost_nonneg path)⟩
  · obtain ⟨gu, hgu, hbound⟩ := heg f_m u hmem hus
    refine ⟨gu, hgu, ?_⟩
    intro path hpath hsmall
    rw [admittedPath_iff] at hpath
    obtain ⟨hhead, hlast, hbnds, hchain⟩ := hpath
    cases path with
    | nil => simp at hhead
    | cons a rest' =>
        have ha : a = start := by
          simp only [List.head?_cons, Option.some.injEq] at hhead
          exact hhead
        subst a
        rcases exists_transition st.closed (start :: rest') u hlast hu with
          ⟨hh, hrest2, heq, hopen⟩ | ⟨A, x, y, B, heq, hxc, hyo⟩
        · have hh_eq : start = hh := by injection heq
          have hopen' : start ∉ st.closed := by rw [hh_eq]; exact hopen
          obtain ⟨g0, hg0, hle0⟩ := hgs
          obtain ⟨fe, hfe_mem, hfe_le⟩ := hoe start hopen' g0 hg0
          have h1 : f_m ≤ fe := entryLe_fst _ _ (hmin _ hfe_mem)
          have h2 : cheb start goal ≤ pathCost (start :: rest') + cheb u goal :=
            cheb_head_le goal rest' start u hlast
          omega
        · have hsplit : (start :: rest') = (A ++ [x]) ++ (y :: B) := by
            rw [heq]
            simp
          have hpre_head : (A ++ [x]).head? = some start := by
            rw [← head?_append_cons x (y :: B) A, ← heq]
            rfl
          have hpre_last : (A ++ [x]).getLast? = some x := by
            rw [List.getLast?_append_cons]
            rfl
          rw [hsplit] at hchain hbnds hlast
          obtain ⟨hchain_pre, hchain_suf, hjunction⟩ := List.chain'_append.mp hchain
          have hxy : y ∈ pol.neighbors x.1 x.2.1 x.2.2 := hjunction x hpre_last y rfl
          have hbnd_y : inBounds y.1 y.2.1 bounds = true :=
            hbnds y (List.mem_append_right _ (List.mem_cons_self y B))
          have hadm_pre : admittedPath pol bounds start x (A ++ [x]) = true := by
            rw [admittedPath_iff]
            refine ⟨hpre_head, hpre_last, ?_, hchain_pre⟩
            intro v hv
            exact hbnds v (List.mem_append_left _ hv)
          have hcost : pathCost (start :: rest') =
              pathCost (A ++ [x]) + (cheb x y + pathCost (y :: B)) := by
            rw [heq, pathCost_append x (y :: B) A]
            rfl
          have hpre_nonneg := pathCost_nonneg (A ++ [x])
          have hsuf_nonneg := pathCost_nonneg (y :: B)
          have hcxy_nonneg := cheb_nonneg x y
          have hpre_small : pathCost (A ++ [x]) ≤ BIG - 2 := by omega
          obtain ⟨gx, hgx, hgx_le⟩ := hcb x hxc (A ++ [x]) hadm_pre hpre_small
          obtain ⟨gx', hgx', hcond⟩ := hrel x hxc y hxy hbnd_y hyo
          have hgx_eq : gx = gx' := Option.some_injective Int (hgx.symm.trans hgx')
          have hcond_ok : gx' + cheb x y < BIG := by omega
          obtain ⟨gy, hgy, hgy_le⟩ := hcond hcond_ok
          obtain ⟨fe, hfe_mem, hfe_le⟩ := hoe y hyo gy hgy
          have hfm : f_m ≤ fe := entryLe_fst _ _ (hmin _ hfe_mem)
          have hsuf_last : (y :: B).getLast? = some u := by
            rw [List.getLast?_append_of_ne_nil _ (by simp)] at hlast
            exact hlast
          have hhy : cheb y goal ≤ pathCost (y :: B) + cheb u goal :=
            cheb_head_le goal B y u hsuf_last
          omega

end RS3

namespace RS3

theorem aStarLoop_lower_bound (conn : Db) (pol : NeighborPolicy)
    (bounds : Int × Int × Int × Int) (start goal : Node)
    (cb : Option (Int → Int → Int → Bool)) (hjps : conn.jps_present = false) :
    ∀ (fuel : Nat) (st : AState),
      AStarInv pol bounds start goal st →
      ∀ (c : Int) (path : List Node),
        aStarLoop conn pol goal bounds true cb fuel st = some (c, path) →
        ∀ q, admittedPath pol bounds start goal q = true →
          pathCost q ≤ BIG - 2 → c ≤ pathCost q := by
  intro fuel
  induction fuel with
  | zero =>
      intro st _ c path hres
      exact absurd hres (by simp [aStarLoop])
  | succ fuel ih =>
      intro st hinv c path hres q hq hqs
      rw [aStarLoop] at hres
      cases hpop : popMin st.open_heap with
      | none => rw [hpop] at hres; exact absurd hres (by simp)
      | some pr =>
          obtain ⟨entry, rest⟩ := pr
          obtain ⟨f_m, u⟩ := entry
          rw [hpop] at hres
          simp only at hres
          by_cases hc : u ∈ st.closed
          · rw [if_pos hc] at hres
            exact ih _ (skip_preserves pol bounds start goal st (f_m, u) rest
              hpop hc hinv) c path hres q hq hqs
          · rw [if_neg hc] at hres
            obtain ⟨gu, hgu, hbound⟩ :=
              pop_g_bound pol bounds start goal st hinv f_m u rest hpop hc
            by_cases hg : u = goal
            · rw [if_pos hg] at hres
              have hpair := Option.some.inj hres
              have hc_eq := congrArg Prod.fst hpair
              simp only at hc_eq
              have hgu' : alookup st.g_score goal = some gu := hg ▸ hgu
              have hval : c = gu := by
                rw [← hc_eq]
                show (alookup st.g_score goal).getD 0 = gu
                rw [hgu']
                rfl
              rw [hval]
              exact hbound q (hg ▸ hq) hqs
            · rw [if_neg hg] at hres
              simp only [if_true] at hres
              rw [expand_no_jps conn pol u.1 u.2.1 u.2.2 cb hjps] at hres
              obtain ⟨⟨h1, h2, h3, h4⟩, h5⟩ := hinv
              obtain ⟨hmem, hmin, hrest⟩ := popMin_spec st.open_heap (f_m, u) rest hpop
              -- the intermediate state with u closed and the popped entry removed
              have hfold := relax_fold pol bounds start goal u gu
                (pol.neighbors u.1 u.2.1 u.2.2)
                { st with open_heap := rest, closed := u :: st.closed }
                (List.mem_cons_self u st.closed) hgu
                (fun w hw => neighbors_plane_of_mem pol u w hw)
                (fun w hw => neighbors_step_pos pol u w hw)
                h1
                (by
                  intro v hv vpath hvp hvs
                  rcases List.mem_cons.mp hv with hveq | hvold
                  · subst hveq
                    exact ⟨gu, hgu, hbound vpath hvp hvs⟩
                  · exact h2 v hvold vpath hvp hvs)
                (by
                  intro v hv gv hgv
                  have hvne : v ≠ u := fun hceq =>
                    hv (hceq ▸ List.mem_cons_self u st.closed)
                  have hvold : v ∉ st.closed := fun hcc =>
                    hv (List.mem_cons_of_mem u hcc)
                  obtain ⟨fe, hfe_mem, hfe_le⟩ := h3 v hvold gv hgv
                  refine ⟨fe, ?_, hfe_le⟩
                  have hne : (fe, v) ≠ (f_m, u) := fun hceq => by
                    have := congrArg Prod.snd hceq
                    exact hvne this
                  rw [hrest]
                  exact (List.mem_erase_of_ne hne).mpr hfe_mem)
                (by
                  intro fe v hfe hvs
                  rw [hrest] at hfe  -- hfe was already about rest; adjust
                  exact h4 fe v (List.mem_of_mem_erase hfe) hvs)
                (by
                  intro v hv hvne w hw hwb hwc
                  rcases List.mem_cons.mp hv with hveq | hvold
                  · exact absurd hveq hvne
                  · have hwc' : w ∉ st.closed := fun hcc =>
                      hwc (List.mem_cons_of_mem u hcc)
                    exact h5 v hvold w hw hwb hwc')
              obtain ⟨c1, c2, c3, c4, c5, c6, c7, c8, c9⟩ := hfold
              refine ih _ ⟨⟨c3, c4, c5, c6⟩, ?_⟩ c path hres q hq hqs
              intro v hv
              by_cases hvu : v = u
              · subst hvu
                intro w hw hwb hwc
                refine ⟨gu, c2, fun hsmall => ?_⟩
                have hwc1 :
                    w ∉ (AState.mk rest st.g_score st.f_score st.came
                      (v :: st.closed)).closed := by
                  rw [← c1]
                  exact hwc
                exact c8 w hw hwb hwc1 hsmall
              · exact c7 v hv hvu

theorem relax_g_bound (goal : Node) (bounds : Int × Int × Int × Int)
    (cur : Node) (st : AState) (nb : Node) (h : GBoundInv st) :
    GBoundInv (relaxNeighbor goal bounds cur st nb) := by
  rcases relax_cases goal bounds cur st nb with he | ⟨_, _, _, _, h5, he⟩
  · rw [he]; exact h
  · rw [he]
    intro v gv hgv
    simp only [alookup_aset] at hgv
    by_cases hv : v = nb
    · rw [if_pos hv] at hgv
      have hgv' := Option.some.inj hgv
      cases hnb : alookup st.g_score nb with
      | none =>
          rw [hnb] at h5
          simp only [Option.getD_none] at h5
          omega
      | some gw =>
          rw [hnb] at h5
          simp only [Option.getD_some] at h5
          have := h nb gw hnb
          omega
    · rw [if_neg hv] at hgv
      exact h v gv hgv

theorem foldl_g_bound (goal : Node) (bounds : Int × Int × Int × Int)
    (cur : Node) :
    ∀ (l : List Node) (st : AState), GBoundInv st →
      GBoundInv (l.foldl (relaxNeighbor goal bounds cur) st) := by
  intro l
  induction l with
  | nil => intro st h; exact h
  | cons x xs ih =>
      intro st h
      exact ih _ (relax_g_bound goal bounds cur st x h)

/-- Whatever cost the loop returns is below the sentinel (or is the getD
default 0 when the goal has no g, which is impossible for a popped goal but
harmless for the bound). -/
theorem aStarLoop_cost_bound (conn : Db) (pol : NeighborPolicy) (goal : Node)
    (bounds : Int × Int × Int × Int) (use_jps : Bool)
    (cb : Option (Int → Int → Int → Bool)) :
    ∀ (fuel : Nat) (st : AState), GBoundInv st →
      ∀ (c : Int) (path : List Node),
        aStarLoop conn pol goal bounds use_jps cb fuel st = some (c, path) →
        c ≤ BIG - 1 := by
  have hB : (1 : Int) ≤ BIG := by norm_num [BIG]
  intro fuel
  induction fuel with
  | zero =>
      intro st _ c path hres
      exact absurd hres (by simp [aStarLoop])
  | succ fuel ih =>
      intro st hg c path hres
      rw [aStarLoop] at hres
      cases hpop : popMin st.open_heap with
      | none => rw [hpop] at hres; exact absurd hres (by simp)
      | some pr =>
          obtain ⟨entry, rest⟩ := pr
          obtain ⟨f_m, u⟩ := entry
          rw [hpop] at hres
          simp only at hres
          by_cases hc : u ∈ st.closed
          · rw [if_pos hc] at hres
            exact ih { st with open_heap := rest } hg c path hres
          · rw [if_neg hc] at hres
            by_cases hgl : u = goal
            · rw [if_pos hgl] at hres
              have hpair := Option.some.inj hres
              have hc_eq := congrArg Prod.fst hpair
              simp only at hc_eq
              rw [← hc_eq]
              show (alookup st.g_score goal).getD 0 ≤ BIG - 1
              cases hl : alookup st.g_score goal with
              | none =>
                  simp only [Option.getD_none]
                  omega
              | some gv =>
                  simp only [Option.getD_some]
                  exact hg goal gv hl
            · rw [if_neg hgl] at hres
              exact ih _
                (foldl_g_bound goal bounds u _
                  { st with open_heap := rest, closed := u :: st.closed } hg)
                c path hres

end RS3

/-- C1 as amended: when the JPS tables (`jps_jump`/`jps_spans`) are absent,
so expansion always falls back to the Neighbor Policy, the cost `_a_star`
returns — the cost upserted into each written cluster_intraconnections
row — is a lower bound on the total integer Chebyshev cost of every path
between the two tiles that stays inside the chunk bounds and uses only
steps admitted by the Neighbor Policy. -/
theorem C1_astar_lower_bound (conn : RS3.Db) (policy : RS3.NeighborPolicy)
    (start goal : RS3.Node) (bounds : Int × Int × Int × Int)
    (cb : Option (Int → Int → Int → Bool)) (fuel : Nat) (c : Int)
    (path : List RS3.Node) (hjps : conn.jps_present = false)
    (hres : RS3.aStar conn policy start goal bounds true cb fuel = some (c, path)) :
    ∀ q, RS3.admittedPath (RS3.resolvePolicy policy cb) bounds start goal q = true →
      c ≤ RS3.pathCost q := by
  intro q hq
  have hB : (2 : Int) ≤ RS3.BIG := by norm_num [RS3.BIG]
  have hgb : RS3.GBoundInv
      { open_heap := [((0 : Int), start)], g_score := [(start, (0 : Int))],
        f_score := [(start, RS3.cheb start goal)], came := [], closed := [] } := by
    intro v gv hgv
    by_cases hvs : v = start
    · subst hvs
      simp only [RS3.alookup, eq_self_iff_true, if_true,
        Option.some.injEq] at hgv
      omega
    · simp only [RS3.alookup, if_neg hvs] at hgv
      exact absurd hgv (by simp)
  have hinv : ∀ pol : RS3.NeighborPolicy, RS3.AStarInv pol bounds start goal
      { open_heap := [((0 : Int), start)], g_score := [(start, (0 : Int))],
        f_score := [(start, RS3.cheb start goal)], came := [], closed := [] } := by
    intro pol
    refine ⟨⟨?_, ?_, ?_, ?_⟩, ?_⟩
    · exact ⟨0, by simp [RS3.alookup], le_refl 0⟩
    · intro v hv
      exact absurd hv (List.not_mem_nil v)
    · intro v hv gv hgv
      by_cases hvs : v = start
      · subst hvs
        simp only [RS3.alookup, eq_self_iff_true, if_true,
          Option.some.injEq] at hgv
        subst hgv
        exact ⟨0, List.mem_singleton.mpr rfl,
          by have := RS3.cheb_nonneg v goal; omega⟩
      · simp only [RS3.alookup, if_neg hvs] at hgv
        exact absurd hgv (by simp)
    · intro fe v hmem hvs
      simp only [List.mem_singleton, Prod.mk.injEq] at hmem
      exact absurd hmem.2 hvs
    · intro v hv
      exact absurd hv (List.not_mem_nil v)
  unfold RS3.aStar at hres
  split at hres
  · exact absurd hres (by simp)
  split at hres
  · exact absurd hres (by simp)
  split at hres
  all_goals try simp only [] at hres
  all_goals split at hres
  all_goals first
    | exact absurd hres (by simp)
    | (rcases le_or_lt (RS3.pathCost q) (RS3.BIG - 2) with hqs | hqs
       · exact RS3.aStarLoop_lower_bound conn _ bounds start goal _ hjps fuel _
           (hinv _) c path hres q hq hqs
       · have hc := RS3.aStarLoop_cost_bound conn _ goal bounds true _
           fuel _ hgb c path hres
         omega)

/-- C1 witness: the lower-bound theorem applied to the JPS-free 3 by 3
store, where `_a_star` returns cost 2 between (0,0,0) and (2,0,0), against
the direct path of cost 2. -/
theorem C1_astar_lower_bound_witness :
    (2 : Int) ≤ RS3.pathCost [((0 : Int), (0 : Int), (0 : Int)), (1, 0, 0), (2, 0, 0)] :=
  C1_astar_lower_bound RS3.dbNoJps RS3.pNoJps (0, 0, 0) (2, 0, 0)
    (RS3.chunkBounds 0 0 3) (some RS3.cbNoJps) 100 2
    [(0, 0, 0), (1, 0, 0), (2, 0, 0)] rfl rfl
    [(0, 0, 0), (1, 0, 0), (2, 0, 0)] (by decide)
